import Mathlib

/-!
# OpenABM-Covid19: the interaction network and the transmission engine of `model.c`

A shallow embedding of `src/src/model.c`.

Conventions of the embedding.

* A C array is a total map from its index to its element (`Nat → α`), a write is
  `Function.update`.  The size of the allocated block is the number the program keeps
  next to the array (`n_interactions`, `params.n_total`, ...); a write at an index at or
  past that number lands outside the block.  The map keeps such a write apart from every
  other object, which the program does not: what the program does after it is not
  defined.  The pairing loop therefore reports the record indices it takes, and a
  statement that needs the memory after a build to be as the map has it carries the
  hypothesis that these indices are inside the block (`in_arena` for a sequence of time
  steps).
* `new_model` asks `calloc` for `sizeof( model )` in the initialiser of a pointer that is
  itself named `model`, so the block it gets has the size of a pointer and the
  assignments that follow write past it.  The statements about constructed states are
  therefore made over `set_up_model`, the four set-up calls on a model structure that is
  given; `calloc_model` and `new_model` only name concrete states.
* A pointer into an array is the index of the element; a pointer that may be `NULL` is an
  `Option Nat` and `none` is `NULL`.  Memory obtained from `calloc` is all zero: counters
  are `0` and pointers are `none`.
* Reading through a `NULL` pointer has no result: the functions that follow list links
  return `Option`, and `none` is that failure.
* The calls into the GSL random source are arguments: `gsl_rng_uniform_int` is the
  stream of its results and `gsl_ran_shuffle` is the map it applies to the array.
* Counters are `Nat`; the bounds of the C integer types are not reached by the
  statements below.
-/

namespace OpenABM

/-! ## Data model -/

/-- Modelled from the spec: the status tags of `constant.h`, which is not part of the
sources; the spec names the statuses uninfected and presymptomatic and leaves the
others open. -/
inductive Status where
  | UNINFECTED : Status
  | PRESYMPTOMATIC : Status
  | OTHER : Nat → Status
  deriving DecidableEq, Repr

/-- The fields of `parameters` that `model.c` reads. -/
structure parameters where
  n_total : Nat
  mean_daily_interactions : Nat
  days_of_interactions : Nat
  end_time : Nat
  n_seed_infection : Nat
  deriving DecidableEq, Repr

/-- An interaction record: the contact and the link to the next record of the list. -/
structure interaction where
  individual : Option Nat
  next : Option Nat
  deriving DecidableEq, Repr

/-- An event record: the infected individual and the link to the next record. -/
structure event where
  individual : Option Nat
  next : Option Nat
  deriving DecidableEq, Repr

/-- Modelled from the spec: the `individual` structure of `individual.h`, which is not
part of the sources: a status tag, the mean number of interactions, and for each day-slot
of the window a count and the head of the adjacency list. -/
structure individual where
  status : Status
  n_mean_interactions : Nat
  n_interactions : Nat → Nat
  interactions : Nat → Option Nat

/-- Modelled from the spec: the `model` structure of `model.h`, which is not part of the
sources; the fields are those `model.c` uses. -/
structure model where
  params : parameters
  time : Nat
  population : Nat → individual
  interactions : Nat → interaction
  n_interactions : Nat
  interaction_idx : Nat
  interaction_day_idx : Nat
  possible_interactions : Nat → Nat
  n_possible_interactions : Nat
  events : Nat → event
  event_idx : Nat
  infected : Nat → Option Nat
  n_infected_daily : Nat → Nat
  n_infected : Nat

/-- A record of `calloc`ed memory. -/
def interaction.zero : interaction := ⟨none, none⟩

/-- A record of `calloc`ed memory. -/
def event.zero : event := ⟨none, none⟩

/-- Modelled from the spec: `initialize_individual` of `individual.c`, which is not part
of the sources: the individual starts uninfected with its fixed mean number of
interactions, no interaction counted and empty lists. -/
def initialize_individual (n_mean : Nat) : individual :=
  { status := Status.UNINFECTED
    n_mean_interactions := n_mean
    n_interactions := fun _ => 0
    interactions := fun _ => none }

/-- Modelled from the spec: the macro `ring_inc` of `utilities.h`, which is not part of
the sources: the cursor advances by one modulo the window length. -/
def ring_inc (x n : Nat) : Nat := (x + 1) % n

/-- A zeroed `model` structure with the parameters copied in and the time set to `0`:
the structure that lines 27 to 29 of `new_model` are written to produce.  The call in
line 27 is `calloc( 1, sizeof( model ) )` with `model` naming the pointer being declared,
so the block the program gets there is shorter than this structure. -/
def calloc_model (params : parameters) : model :=
  { params := params
    time := 0
    population := fun _ => initialize_individual 0
    interactions := fun _ => interaction.zero
    n_interactions := 0
    interaction_idx := 0
    interaction_day_idx := 0
    possible_interactions := fun _ => 0
    n_possible_interactions := 0
    events := fun _ => event.zero
    event_idx := 0
    infected := fun _ => none
    n_infected_daily := fun _ => 0
    n_infected := 0 }

/-! ## Set-up -/

/-- `set_up_events`: the cursor is reset and a zeroed block of `2 * n_total` records is
allocated. -/
def set_up_events (m : model) : model :=
  { m with event_idx := 0, events := fun _ => event.zero }

/-- The loop of `set_up_population` over `idx < n`. -/
def set_up_population_loop (n_mean : Nat → Nat) : Nat → (Nat → individual) → (Nat → individual)
  | 0, pop => pop
  | n + 1, pop =>
    Function.update (set_up_population_loop n_mean n pop) n (initialize_individual (n_mean n))

/-- `set_up_population`; `n_mean idx` is the mean number of interactions that
`initialize_individual` gives to individual `idx`. -/
def set_up_population (n_mean : Nat → Nat) (m : model) : model :=
  { m with population :=
      (set_up_population_loop n_mean m.params.n_total (fun _ => initialize_individual 0)) }

/-- The inner loop of `set_up_interactions`: `n` times
`possible_interactions[ idx++ ] = indiv_idx`. -/
def fill_template_inner (indiv_idx : Nat) : Nat → (Nat → Nat) × Nat → (Nat → Nat) × Nat
  | 0, st => st
  | n + 1, st =>
    let st1 := fill_template_inner indiv_idx n st
    (Function.update st1.1 st1.2 indiv_idx, st1.2 + 1)

/-- The outer loop of `set_up_interactions` over `indiv_idx < n`. -/
def fill_template (pop : Nat → individual) : Nat → (Nat → Nat) × Nat → (Nat → Nat) × Nat
  | 0, st => st
  | n + 1, st =>
    fill_template_inner n (pop n).n_mean_interactions (fill_template pop n st)

/-- The number of template slots `set_up_interactions` allocates. -/
def n_daily_interactions (params : parameters) : Nat :=
  params.n_total * params.mean_daily_interactions

/-- `set_up_interactions`. -/
def set_up_interactions (m : model) : model :=
  let n_interactions := n_daily_interactions m.params * m.params.days_of_interactions
  let st := fill_template m.population m.params.n_total (fun _ => 0, 0)
  { m with
    interactions := fun _ => interaction.zero
    n_interactions := n_interactions
    interaction_idx := 0
    interaction_day_idx := 0
    possible_interactions := st.1
    n_possible_interactions := st.2 }

/-! ## Infection bookkeeping -/

/-- `new_event`: the index of the record handed out and the model with the cursor
advanced. -/
def new_event (m : model) : Nat × model :=
  (m.event_idx, { m with event_idx := m.event_idx + 1 })

/-- `new_infection`. -/
def new_infection (m : model) (indiv : Nat) : model :=
  let m1 := { m with population :=
    (Function.update m.population indiv
      { m.population indiv with status := Status.PRESYMPTOMATIC }) }
  let ev := (new_event m1).1
  let m2 := (new_event m1).2
  let m3 := { m2 with events :=
    (Function.update m2.events ev { individual := some indiv, next := m2.infected m2.time }) }
  let m4 := { m3 with infected := Function.update m3.infected m3.time (some ev) }
  { m4 with
    n_infected_daily :=
      (Function.update m4.n_infected_daily m4.time (m4.n_infected_daily m4.time + 1))
    n_infected := m4.n_infected + 1 }

/-- The first loop of `set_up_seed_infection`: `n_infected_daily[day] = 0` for
`day < n`. -/
def zero_daily : Nat → (Nat → Nat) → (Nat → Nat)
  | 0, a => a
  | n + 1, a => Function.update (zero_daily n a) n 0

/-- The second loop of `set_up_seed_infection` over `idx < n`; `person idx` is the
result of the call of `gsl_rng_uniform_int` in iteration `idx`. -/
def seed_loop (person : Nat → Nat) : Nat → model → model
  | 0, m => m
  | n + 1, m => new_infection (seed_loop person n m) (person n)

/-- `set_up_seed_infection`. -/
def set_up_seed_infection (person : Nat → Nat) (m : model) : model :=
  let m1 := { m with n_infected := 0 }
  let m2 := { m1 with n_infected_daily := zero_daily m1.params.end_time m1.n_infected_daily }
  seed_loop person m2.params.n_seed_infection m2

/-- The four set-up calls of `new_model`, lines 31 to 34, on a model structure `m` that
holds the parameters; `n_mean` and `person` are as in `set_up_population` and
`set_up_seed_infection`. -/
def set_up_model (n_mean : Nat → Nat) (person : Nat → Nat) (m : model) : model :=
  set_up_seed_infection person
    (set_up_events (set_up_interactions (set_up_population n_mean m)))

/-- `new_model`, with line 27 read as the allocation of one zeroed `model` structure
(`calloc_model`).  The program allocates a block of the size of a pointer there, so this
is the state the function is written to build, used to name concrete states; what holds
after construction is stated over `set_up_model` on a given structure. -/
def new_model (params : parameters) (n_mean : Nat → Nat) (person : Nat → Nat) : model :=
  set_up_seed_infection person
    (set_up_events (set_up_interactions (set_up_population n_mean (calloc_model params))))

/-! ## Transmission -/

/-- The loop over `jdx < n` of `transmit_virus`, from the record `interaction`. -/
def contact_loop : Nat → Option Nat → model → Option model
  | 0, _, m => some m
  | _ + 1, none, _ => none
  | n + 1, some p, m =>
    match (m.interactions p).individual with
    | none => none
    | some x =>
      let m1 := if (m.population x).status = Status.UNINFECTED then new_infection m x else m
      contact_loop n (m1.interactions p).next m1

/-- The loop over `idx < n` of `transmit_virus`, from the record `event`. -/
def event_loop : Nat → Option Nat → model → Option model
  | 0, _, m => some m
  | _ + 1, none, _ => none
  | n + 1, some e, m =>
    match (m.events e).individual with
    | none => none
    | some infector =>
      let n_interaction := (m.population infector).n_interactions m.interaction_day_idx
      let interaction := (m.population infector).interactions m.interaction_day_idx
      (contact_loop n_interaction interaction m).bind
        fun m1 => event_loop n (m1.events e).next m1

/-- The loop over `day` of `transmit_virus`: the days `d - 1`, ..., `0` in this order. -/
def day_loop : Nat → model → Option model
  | 0, m => some m
  | d + 1, m => (event_loop (m.n_infected_daily d) (m.infected d) m).bind (day_loop d)

/-- `transmit_virus`. -/
def transmit_virus (m : model) : Option model := day_loop m.time m

/-! ## The daily network -/

/-- The first loop of `build_daily_newtork`: `n_interactions[ day ] = 0` for `idx < n`. -/
def reset_counts (day : Nat) : Nat → (Nat → individual) → (Nat → individual)
  | 0, pop => pop
  | n + 1, pop =>
    let pop1 := reset_counts day n pop
    Function.update pop1 n
      { pop1 n with n_interactions := (Function.update (pop1 n).n_interactions day 0) }

/-- The copy of the template that `build_daily_newtork` hands to `gsl_ran_shuffle`. -/
def template_copy (m : model) : List Nat :=
  (List.range m.n_possible_interactions).map m.possible_interactions

/-- Prepends the record `inter` with contact `other` to the list of `indiv` for `day`. -/
def link (day : Nat) (inter indiv other : Nat) (m : model) : model :=
  let m1 := { m with interactions :=
    (Function.update m.interactions inter
      { individual := some other, next := (m.population indiv).interactions day }) }
  let m2 := { m1 with population :=
    (Function.update m1.population indiv
      { m1.population indiv with
        interactions := (Function.update (m1.population indiv).interactions day (some inter)) }) }
  { m2 with population :=
    (Function.update m2.population indiv
      { m2.population indiv with
        n_interactions := (Function.update (m2.population indiv).n_interactions day
          ((m2.population indiv).n_interactions day + 1)) }) }

/-- The body of the pairing loop for a pair `indiv1 ≠ indiv2`: two records are taken at
the cursor, linked, and the cursor is reset when it has passed `n_interactions`.  The
test comes after both records are taken and uses `>`, so the records can be at the
indices `n_interactions` and `n_interactions + 1`, outside the block; the map keeps them
as records, and `pair_loop` reports every index taken. -/
def pair_body (day indiv1 indiv2 : Nat) (m : model) : model :=
  let inter1 := m.interaction_idx
  let inter2 := m.interaction_idx + 1
  let m1 := { m with interaction_idx := m.interaction_idx + 2 }
  let m2 := link day inter1 indiv1 indiv2 m1
  let m3 := link day inter2 indiv2 indiv1 m2
  if m3.interaction_idx > m3.n_interactions then { m3 with interaction_idx := 0 } else m3

/-- The pairing loop of `build_daily_newtork` from position `idx`; the second component
collects the indices of the records taken from the arena, in the order they are taken. -/
def pair_loop (day : Nat) (interactions : List Nat) (n_pos : Int) (idx : Nat)
    (m : model) (taken : List Nat) : model × List Nat :=
  if (idx : Int) < n_pos then
    if interactions.getD idx 0 = interactions.getD (idx + 1) 0 then
      pair_loop day interactions n_pos (idx + 1) m taken
    else
      pair_loop day interactions n_pos (idx + 2)
        (pair_body day (interactions.getD idx 0) (interactions.getD (idx + 1) 0) m)
        (taken ++ [m.interaction_idx, m.interaction_idx + 1])
  else (m, taken)
termination_by (n_pos - idx).toNat
decreasing_by
  all_goals simp_wf
  all_goals omega

/-- The body of `build_daily_newtork` with the record indices it takes. -/
def build_daily_newtork_taken (gsl_ran_shuffle : List Nat → List Nat) (m : model) :
    model × List Nat :=
  let day := m.interaction_day_idx
  let m1 := { m with population := reset_counts day m.params.n_total m.population }
  let interactions := gsl_ran_shuffle (template_copy m1)
  let n_pos : Int := (m1.n_possible_interactions : Int) - 1
  pair_loop day interactions n_pos 0 m1 []

/-- `build_daily_newtork`. -/
def build_daily_newtork (gsl_ran_shuffle : List Nat → List Nat) (m : model) : model :=
  (build_daily_newtork_taken gsl_ran_shuffle m).1

/-! ## The time step -/

/-- `one_time_step`: the value returned and the model after the step. -/
def one_time_step (gsl_ran_shuffle : List Nat → List Nat) (m : model) : Option (Int × model) :=
  let m1 := { m with time := m.time + 1 }
  let m2 := build_daily_newtork gsl_ran_shuffle m1
  (transmit_virus m2).map fun m3 =>
    (1, { m3 with interaction_day_idx :=
      (ring_inc m3.interaction_day_idx m3.params.days_of_interactions) })

/-- A sequence of calls of `one_time_step`, one for each shuffle of the list. -/
def run : List (List Nat → List Nat) → model → Option model
  | [], m => some m
  | f :: fs, m => (one_time_step f m).bind fun r => run fs r.2

/-- The builds of the time steps `fs` from `m` take every interaction record at an index
below `n_interactions`, inside the block that `set_up_interactions` allocates. -/
def in_arena : List (List Nat → List Nat) → model → Prop
  | [], _ => True
  | f :: fs, m =>
    (∀ i ∈ (build_daily_newtork_taken f { m with time := m.time + 1 }).2,
        i < m.n_interactions)
    ∧ ∀ r, one_time_step f m = some r → in_arena fs r.2

/-! ## Observers used by the statements -/

/-- The indices of the first `n` records of the list that starts at `head`, following the
links `next`; there is no result when the list ends before `n` records. -/
def list_records (next : Nat → Option Nat) : Nat → Option Nat → Option (List Nat)
  | 0, _ => some []
  | _ + 1, none => none
  | n + 1, some p => (list_records next n (next p)).map (p :: ·)

/-- The contacts named by the first `n` interaction records of the list at `head`. -/
def list_contacts (mem : Nat → interaction) : Nat → Option Nat → Option (List Nat)
  | 0, _ => some []
  | _ + 1, none => none
  | n + 1, some p =>
    match (mem p).individual with
    | none => none
    | some x => (list_contacts mem n (mem p).next).map (x :: ·)

/-- The individuals named by the first `n` event records of the list at `head`. -/
def list_infected (mem : Nat → event) : Nat → Option Nat → Option (List Nat)
  | 0, _ => some []
  | _ + 1, none => none
  | n + 1, some p =>
    match (mem p).individual with
    | none => none
    | some x => (list_infected mem n (mem p).next).map (x :: ·)

/-- The adjacency list of individual `x` for day-slot `day`: the contacts of the first
`n_interactions[ day ]` records from `interactions[ day ]`. -/
def adjacency (m : model) (day x : Nat) : Option (List Nat) :=
  list_contacts m.interactions ((m.population x).n_interactions day)
    ((m.population x).interactions day)

/-- The list at `head` consists of the records `recs`, which name the contacts `cs`. -/
def IsList (mem : Nat → interaction) : Option Nat → List Nat → List Nat → Prop
  | _, [], [] => True
  | some p, r :: recs, c :: cs =>
    p = r ∧ (mem r).individual = some c ∧ IsList mem (mem r).next recs cs
  | _, _, _ => False

/-- The array the pairing loop reads: the entries `0`, ..., `n - 1` of the local array. -/
def scanned (interactions : List Nat) (n : Nat) : List Nat :=
  (List.range n).map fun i => interactions.getD i 0

/-- The pairs a left-to-right scan makes: two equal neighbours drop the first of them,
two different neighbours are a pair, a last single entry is dropped. -/
def pairs : List Nat → List (Nat × Nat)
  | a :: b :: rest => if a = b then pairs (b :: rest) else (a, b) :: pairs rest
  | _ => []

/-- The pairing loop as a fold of its body over a list of pairs. -/
def pair_fold (day : Nat) : List (Nat × Nat) → model → List Nat → model × List Nat
  | [], m, taken => (m, taken)
  | p :: ps, m, taken =>
    pair_fold day ps (pair_body day p.1 p.2 m)
      (taken ++ [m.interaction_idx, m.interaction_idx + 1])

/-- The cursor after one pair taken at cursor `c` in an arena of capacity `N`. -/
def next_cursor (N c : Nat) : Nat := if c + 2 > N then 0 else c + 2

/-- The cursor after `k` pairs. -/
def cursor_after (N : Nat) : Nat → Nat → Nat
  | 0, c => c
  | k + 1, c => cursor_after N k (next_cursor N c)

/-- The record indices taken by `k` pairs from cursor `c`. -/
def write_log (N : Nat) : Nat → Nat → List Nat
  | 0, _ => []
  | k + 1, c => c :: (c + 1) :: write_log N k (next_cursor N c)

/-- The partners of `x` in a list of pairs, in the order of the pairs. -/
def partners (x : Nat) : List (Nat × Nat) → List Nat
  | [] => []
  | p :: ps =>
    if p.1 = x then p.2 :: partners x ps
    else if p.2 = x then p.1 :: partners x ps
    else partners x ps

/-- The pairs that `build_daily_newtork` makes on `m` under the shuffle. -/
def daily_pairs (gsl_ran_shuffle : List Nat → List Nat) (m : model) : List (Nat × Nat) :=
  pairs (scanned (gsl_ran_shuffle (template_copy m)) m.n_possible_interactions)

/-- The fields of the model that the pairing loop and the reset loop never write. -/
def SameOutsideNetwork (m m1 : model) : Prop :=
  m1.params = m.params ∧ m1.time = m.time ∧ m1.n_interactions = m.n_interactions
  ∧ m1.interaction_day_idx = m.interaction_day_idx
  ∧ m1.possible_interactions = m.possible_interactions
  ∧ m1.n_possible_interactions = m.n_possible_interactions
  ∧ m1.events = m.events ∧ m1.event_idx = m.event_idx ∧ m1.infected = m.infected
  ∧ m1.n_infected_daily = m.n_infected_daily ∧ m1.n_infected = m.n_infected

/-- The conditional call of `new_infection` in `transmit_virus`. -/
def infect (m : model) (x : Nat) : model :=
  if (m.population x).status = Status.UNINFECTED then new_infection m x else m

/-- The conditional infection of a sequence of contacts, in order. -/
def infect_all (cs : List Nat) (m : model) : model := cs.foldl infect m

/-- What a sequence of calls of `new_infection` leaves in place, and how far it moves the
rest: the network, the template, the time and the older event records and day lists are
the same, the counters do not decrease, a status is the same or presymptomatic. -/
def InfectionFrame (m m1 : model) : Prop :=
  m1.params = m.params ∧ m1.time = m.time ∧ m1.interactions = m.interactions
  ∧ m1.n_interactions = m.n_interactions ∧ m1.interaction_idx = m.interaction_idx
  ∧ m1.interaction_day_idx = m.interaction_day_idx
  ∧ m1.possible_interactions = m.possible_interactions
  ∧ m1.n_possible_interactions = m.n_possible_interactions
  ∧ m.n_infected ≤ m1.n_infected ∧ m.event_idx ≤ m1.event_idx
  ∧ (∀ e, e < m.event_idx → m1.events e = m.events e)
  ∧ (∀ d, d ≠ m.time →
      m1.infected d = m.infected d ∧ m1.n_infected_daily d = m.n_infected_daily d)
  ∧ (∀ x, (m1.population x).n_interactions = (m.population x).n_interactions
      ∧ (m1.population x).interactions = (m.population x).interactions
      ∧ (m1.population x).n_mean_interactions = (m.population x).n_mean_interactions
      ∧ ((m1.population x).status = (m.population x).status
          ∨ (m1.population x).status = Status.PRESYMPTOMATIC))

/-- The event list at `head` consists of the records `recs`, which name the individuals
`infs`. -/
def IsEventList (mem : Nat → event) : Option Nat → List Nat → List Nat → Prop
  | _, [], [] => True
  | some p, r :: recs, c :: cs =>
    p = r ∧ (mem r).individual = some c ∧ IsEventList mem (mem r).next recs cs
  | _, _, _ => False

/-- The contacts of a sequence of infectors in the current day-slot, infector after
infector; there is no result when one of the adjacency lists is cut short. -/
def contacts_of (m : model) : List Nat → Option (List Nat)
  | [] => some []
  | y :: ys =>
    match adjacency m m.interaction_day_idx y, contacts_of m ys with
    | some a, some b => some (a ++ b)
    | _, _ => none

/-- The individuals recorded in the infected-event list of day `d`. -/
def infected_on (m : model) (d : Nat) : Option (List Nat) :=
  list_infected m.events (m.n_infected_daily d) (m.infected d)

/-- The event records of the infected-event list of day `d`. -/
def event_records_on (m : model) (d : Nat) : Option (List Nat) :=
  list_records (fun e => (m.events e).next) (m.n_infected_daily d) (m.infected d)

/-- A state that `transmit_virus` can read: for every earlier day the infected-event list
has the records its counter announces, they are records already handed out, and every
individual they name has an adjacency list for the current day-slot with the records its
counter announces. -/
def Consistent (m : model) : Prop :=
  ∀ d, d < m.time → ∃ recs infs,
    event_records_on m d = some recs ∧ (∀ r ∈ recs, r < m.event_idx)
    ∧ infected_on m d = some infs
    ∧ ∀ y ∈ infs, ∃ cs, adjacency m m.interaction_day_idx y = some cs

/-- Individual `x` is in the adjacency list of the current day-slot of an individual
recorded in the infected-event list of an earlier day. -/
def Exposed (m : model) (x : Nat) : Prop :=
  ∃ d infs y cs, d < m.time ∧ infected_on m d = some infs ∧ y ∈ infs
    ∧ adjacency m m.interaction_day_idx y = some cs ∧ x ∈ cs

/-- The data of day `d` that `transmit_virus` reads: the records `recs` of the
infected-event list, the individuals `infs` they name, and the contacts `cs` of these in
the current day-slot. -/
def DayLists (m : model) (d : Nat) (recs infs cs : List Nat) : Prop :=
  IsEventList m.events (m.infected d) recs infs ∧ recs.length = m.n_infected_daily d
  ∧ (∀ r ∈ recs, r < m.event_idx) ∧ contacts_of m infs = some cs

/-- Every infected-event list has the records its counter announces, they are records
already handed out, and they name individuals of the population. -/
def EventsOK (m : model) : Prop :=
  ∀ d, ∃ recs infs, IsEventList m.events (m.infected d) recs infs
    ∧ recs.length = m.n_infected_daily d ∧ (∀ r ∈ recs, r < m.event_idx)
    ∧ ∀ y ∈ infs, y < m.params.n_total

/-- The invariant of the states reached from construction that keeps `transmit_virus`
away from `NULL`: the records of one build are at most one more than the arena has, the
template names individuals of the population, and the event lists are in order. -/
def WellFormed (m : model) : Prop :=
  m.n_possible_interactions ≤ m.n_interactions + 1
  ∧ (∀ i, i < m.n_possible_interactions → m.possible_interactions i < m.params.n_total)
  ∧ EventsOK m

/-! ## Example states -/

/-- An example: a population of two with one mean interaction each, a window of two days
and one seed infection, drawn as individual `0`. -/
def example_model : model := new_model ⟨2, 1, 2, 10, 1⟩ (fun _ => 1) (fun _ => 0)

/-- The state of the example before its seed infection. -/
def example_unseeded : model :=
  set_up_events (set_up_interactions (set_up_population (fun _ => 1)
    (calloc_model ⟨2, 1, 2, 10, 1⟩)))

/-- A model structure for the examples: the parameters of `example_model`, the time `0`,
and contents left over in the fields that the set-up calls write or never read. -/
def example_block : model :=
  { params := ⟨2, 1, 2, 10, 1⟩
    time := 0
    population := fun _ => initialize_individual 0
    interactions := fun _ => interaction.zero
    n_interactions := 0
    interaction_idx := 7
    interaction_day_idx := 1
    possible_interactions := fun _ => 0
    n_possible_interactions := 0
    events := fun _ => event.zero
    event_idx := 3
    infected := fun _ => some 9
    n_infected_daily := fun d => if d < 10 then 4 else 0
    n_infected := 5 }

/-- The state after the set-up calls on `example_block`: one mean interaction for each
of the two individuals, the seed drawn as individual `0`. -/
def example_state : model := set_up_model (fun _ => 1) (fun _ => 0) example_block

/-- The control flow of the pairing loop of `build_daily_newtork` from position `idx`,
with the body reduced to what it pairs: the sequence of `(indiv1, indiv2)` for which the
loop takes two interaction records, in the order of the scan. -/
def scan_pairs (interactions : List Nat) (n_pos : Int) (idx : Nat) : List (Nat × Nat) :=
  if (idx : Int) < n_pos then
    if interactions.getD idx 0 = interactions.getD (idx + 1) 0 then
      scan_pairs interactions n_pos (idx + 1)
    else
      (interactions.getD idx 0, interactions.getD (idx + 1) 0)
        :: scan_pairs interactions n_pos (idx + 2)
  else []
termination_by (n_pos - idx).toNat
decreasing_by
  all_goals simp_wf
  all_goals omega

/-- The number of times the scan meets two equal neighbours and drops an entry. -/
def self_pairs : List Nat → Nat
  | a :: b :: rest => if a = b then self_pairs (b :: rest) + 1 else self_pairs rest
  | _ => 0

/-- The parameters of the scenario: ten individuals, two mean interactions each, a window
of one day, one seed infection. -/
def scenario_params : parameters := ⟨10, 2, 1, 10, 1⟩

/-- A model structure that holds the parameters of the scenario, at time `0`, with the
left-over contents of `example_block` in its other fields. -/
def scenario_block : model := { example_block with params := scenario_params }

/-- The state of the scenario after the set-up calls on `scenario_block`: two mean
interactions for each individual, the seed drawn as individual `0`. -/
def scenario_model : model := set_up_model (fun _ => 2) (fun _ => 0) scenario_block

/-- A shuffle outcome of the scenario without two equal neighbours: the individuals in
order, twice. -/
def scenario_shuffle : List Nat → List Nat := fun _ => List.range 10 ++ List.range 10

/-- The model `m` with other event records and other heads of the infected-event
lists. -/
def with_events (m : model) (events : Nat → event) (infected : Nat → Option Nat) : model :=
  { m with events := events, infected := infected }

theorem fill_template_inner_snd (i n : Nat) (st : (Nat → Nat) × Nat) :
    (fill_template_inner i n st).2 = st.2 + n := by
  induction n with
  | zero => rfl
  | succ n ih => simp only [fill_template_inner, ih]; omega

theorem fill_template_inner_list (i n : Nat) (st : (Nat → Nat) × Nat) :
    (List.range (fill_template_inner i n st).2).map (fill_template_inner i n st).1
      = (List.range st.2).map st.1 ++ List.replicate n i := by
  induction n with
  | zero => simp [fill_template_inner]
  | succ n ih =>
    have hs := fill_template_inner_snd i n st
    simp only [fill_template_inner, List.range_succ, List.map_append, List.map_cons,
      List.map_nil, Function.update_same, List.replicate_succ']
    rw [← List.append_assoc, ← ih]
    congr 1
    apply List.map_congr_left
    intro j hj
    have : j ≠ (fill_template_inner i n st).2 := by
      have := List.mem_range.mp hj
      omega
    simp [Function.update_noteq this]

/-- The template that `set_up_interactions` writes for the first `n` individuals. -/
theorem fill_template_list (pop : Nat → individual) (n : Nat) (st : (Nat → Nat) × Nat) :
    (List.range (fill_template pop n st).2).map (fill_template pop n st).1
      = (List.range st.2).map st.1
        ++ ((List.range n).map fun i => List.replicate (pop i).n_mean_interactions i).flatten := by
  induction n with
  | zero => simp [fill_template]
  | succ n ih =>
    simp only [fill_template, fill_template_inner_list, ih, List.range_succ, List.map_append,
      List.map_cons, List.map_nil, List.flatten_append, List.flatten_cons, List.flatten_nil,
      List.append_nil, List.append_assoc]

theorem template_copy_set_up_interactions (m : model) :
    template_copy (set_up_interactions m)
      = ((List.range m.params.n_total).map
          fun i => List.replicate (m.population i).n_mean_interactions i).flatten := by
  have h := fill_template_list m.population m.params.n_total (fun _ => 0, 0)
  simpa [template_copy, set_up_interactions] using h

theorem length_template_copy (m : model) :
    (template_copy m).length = m.n_possible_interactions := by
  simp [template_copy]

theorem blocks_length (g : Nat → Nat) (n : Nat) :
    ((List.range n).map fun i => List.replicate (g i) i).flatten.length
      = ∑ i in Finset.range n, g i := by
  induction n with
  | zero => simp
  | succ n ih =>
    simp only [List.range_succ, List.map_append, List.flatten_append, List.length_append, ih,
      Finset.sum_range_succ]
    simp

theorem blocks_count (g : Nat → Nat) (n i : Nat) :
    ((List.range n).map fun j => List.replicate (g j) j).flatten.count i
      = if i < n then g i else 0 := by
  induction n with
  | zero => simp
  | succ n ih =>
    simp only [List.range_succ, List.map_append, List.flatten_append, List.count_append, ih]
    simp only [List.map_cons, List.map_nil, List.flatten_cons, List.flatten_nil,
      List.append_nil, List.count_replicate]
    by_cases h1 : i < n
    · have : ¬ n = i := by omega
      simp [h1, this, Nat.lt_succ_of_lt h1]
    · by_cases h2 : n = i
      · subst h2; simp
      · have : ¬ i < n + 1 := by omega
        simp [h1, h2, this]

theorem blocks_mem (g : Nat → Nat) (n i : Nat)
    (h : i ∈ ((List.range n).map fun j => List.replicate (g j) j).flatten) : i < n := by
  by_contra hn
  have hc := blocks_count g n i
  simp only [hn, if_false] at hc
  exact (List.count_pos_iff.mpr h).ne' hc

theorem blocks_sorted (g : Nat → Nat) (n : Nat) :
    ((List.range n).map fun j => List.replicate (g j) j).flatten.Pairwise (· ≤ ·) := by
  induction n with
  | zero => simp
  | succ n ih =>
    simp only [List.range_succ, List.map_append, List.flatten_append, List.map_cons,
      List.map_nil, List.flatten_cons, List.flatten_nil, List.append_nil]
    rw [List.pairwise_append]
    refine ⟨ih, ?_, ?_⟩
    · simp [List.pairwise_replicate]
    · intro a ha b hb
      have h1 := blocks_mem g n a ha
      have h2 := (List.mem_replicate.mp hb).2
      omega

theorem set_up_interactions_n_possible (m : model) :
    (set_up_interactions m).n_possible_interactions
      = ∑ i in Finset.range m.params.n_total, (m.population i).n_mean_interactions := by
  rw [← length_template_copy, template_copy_set_up_interactions, blocks_length]

theorem mem_template_set_up_interactions (m : model) (i : Nat)
    (hi : i ∈ template_copy (set_up_interactions m)) : i < m.params.n_total := by
  rw [template_copy_set_up_interactions] at hi
  exact blocks_mem _ _ _ hi

/-- C9, template construction: after `set_up_interactions` the template size is the sum
of the mean interactions of the `n_total` individuals, individual `i` occupies exactly
`n_mean_interactions` slots of the template, the entries are in non-decreasing order, and
when every individual has `mean_daily_interactions` mean interactions the template fills
the `n_total * mean_daily_interactions` slots allocated for it. -/
theorem template_construction (m : model) :
    (set_up_interactions m).n_possible_interactions
        = ∑ i in Finset.range m.params.n_total, (m.population i).n_mean_interactions
    ∧ (∀ i, i < m.params.n_total →
        (template_copy (set_up_interactions m)).count i = (m.population i).n_mean_interactions)
    ∧ (∀ i, i ∈ template_copy (set_up_interactions m) → i < m.params.n_total)
    ∧ (template_copy (set_up_interactions m)).Pairwise (· ≤ ·)
    ∧ ((∀ i, i < m.params.n_total →
          (m.population i).n_mean_interactions = m.params.mean_daily_interactions) →
        (set_up_interactions m).n_possible_interactions = n_daily_interactions m.params) := by
  have hlen := set_up_interactions_n_possible m
  refine ⟨hlen, ?_, mem_template_set_up_interactions m, ?_, ?_⟩
  · intro i hi
    rw [template_copy_set_up_interactions, blocks_count, if_pos hi]
  · rw [template_copy_set_up_interactions]
    exact blocks_sorted _ _
  · intro hu
    rw [hlen, Finset.sum_congr rfl (fun i hi => hu i (Finset.mem_range.mp hi))]
    simp [n_daily_interactions]

/-! ## Infection bookkeeping and the seed infections -/

@[simp] theorem new_infection_params (m : model) (x : Nat) :
    (new_infection m x).params = m.params := rfl

@[simp] theorem new_infection_interactions (m : model) (x : Nat) :
    (new_infection m x).interactions = m.interactions := rfl

@[simp] theorem new_infection_n_interactions (m : model) (x : Nat) :
    (new_infection m x).n_interactions = m.n_interactions := rfl

@[simp] theorem new_infection_interaction_idx (m : model) (x : Nat) :
    (new_infection m x).interaction_idx = m.interaction_idx := rfl

@[simp] theorem new_infection_interaction_day_idx (m : model) (x : Nat) :
    (new_infection m x).interaction_day_idx = m.interaction_day_idx := rfl

@[simp] theorem new_infection_possible_interactions (m : model) (x : Nat) :
    (new_infection m x).possible_interactions = m.possible_interactions := rfl

@[simp] theorem new_infection_n_possible_interactions (m : model) (x : Nat) :
    (new_infection m x).n_possible_interactions = m.n_possible_interactions := rfl

@[simp] theorem new_infection_n_infected (m : model) (x : Nat) :
    (new_infection m x).n_infected = m.n_infected + 1 := rfl

@[simp] theorem new_infection_event_idx (m : model) (x : Nat) :
    (new_infection m x).event_idx = m.event_idx + 1 := rfl

theorem new_infection_population (m : model) (x : Nat) :
    (new_infection m x).population
      = Function.update m.population x
          { m.population x with status := Status.PRESYMPTOMATIC } := rfl

theorem new_infection_events (m : model) (x : Nat) :
    (new_infection m x).events
      = Function.update m.events m.event_idx
          { individual := some x, next := m.infected m.time } := rfl

theorem new_infection_infected (m : model) (x : Nat) :
    (new_infection m x).infected
      = Function.update m.infected m.time (some m.event_idx) := rfl

theorem new_infection_n_infected_daily (m : model) (x : Nat) :
    (new_infection m x).n_infected_daily
      = Function.update m.n_infected_daily m.time (m.n_infected_daily m.time + 1) := by
  simp [new_infection, new_event]

theorem new_infection_status (m : model) (x y : Nat) :
    ((new_infection m x).population y).status
      = if y = x then Status.PRESYMPTOMATIC else (m.population y).status := by
  rw [new_infection_population]
  by_cases h : y = x
  · subst h; simp
  · simp [Function.update_noteq h, h]

theorem new_infection_n_interactions_of (m : model) (x y : Nat) :
    ((new_infection m x).population y).n_interactions = (m.population y).n_interactions := by
  rw [new_infection_population]
  by_cases h : y = x
  · subst h; simp
  · simp [Function.update_noteq h]

theorem new_infection_interactions_of (m : model) (x y : Nat) :
    ((new_infection m x).population y).interactions = (m.population y).interactions := by
  rw [new_infection_population]
  by_cases h : y = x
  · subst h; simp
  · simp [Function.update_noteq h]

theorem new_infection_n_mean_interactions (m : model) (x y : Nat) :
    ((new_infection m x).population y).n_mean_interactions
      = (m.population y).n_mean_interactions := by
  rw [new_infection_population]
  by_cases h : y = x
  · subst h; simp
  · simp [Function.update_noteq h]

theorem seed_loop_n_infected (person : Nat → Nat) (n : Nat) (m : model) :
    (seed_loop person n m).n_infected = m.n_infected + n := by
  induction n with
  | zero => rfl
  | succ n ih => simp only [seed_loop, new_infection_n_infected, ih]; omega

theorem seed_loop_status (person : Nat → Nat) (n : Nat) (m : model) (x : Nat) :
    ((seed_loop person n m).population x).status
      = if ∃ i, i < n ∧ person i = x then Status.PRESYMPTOMATIC
        else (m.population x).status := by
  induction n with
  | zero => simp [seed_loop]
  | succ n ih =>
    simp only [seed_loop, new_infection_status, ih]
    by_cases h1 : x = person n
    · have h4 : ∃ i, i < n + 1 ∧ person i = x := ⟨n, Nat.lt_succ_self n, h1.symm⟩
      rw [if_pos h1, if_pos h4]
    · by_cases h2 : ∃ i, i < n ∧ person i = x
      · obtain ⟨i, hi, hp⟩ := h2
        have h3 : ∃ i, i < n ∧ person i = x := ⟨i, hi, hp⟩
        have h4 : ∃ i, i < n + 1 ∧ person i = x := ⟨i, Nat.lt_succ_of_lt hi, hp⟩
        simp only [h1, if_false, h3, h4, if_true]
      · have h4 : ¬ ∃ i, i < n + 1 ∧ person i = x := by
          rintro ⟨i, hi, hp⟩
          rcases Nat.lt_succ_iff_lt_or_eq.mp hi with h | h
          · exact h2 ⟨i, h, hp⟩
          · subst h; exact h1 hp.symm
        simp only [h1, if_false, h2, h4]

theorem set_up_population_loop_apply (n_mean : Nat → Nat) (n : Nat) (pop : Nat → individual)
    (x : Nat) :
    set_up_population_loop n_mean n pop x
      = if x < n then initialize_individual (n_mean x) else pop x := by
  induction n with
  | zero => simp [set_up_population_loop]
  | succ n ih =>
    simp only [set_up_population_loop]
    by_cases h : x = n
    · subst h; simp
    · rw [Function.update_noteq h, ih]
      by_cases h1 : x < n
      · simp [h1, Nat.lt_succ_of_lt h1]
      · have : ¬ x < n + 1 := by omega
        simp [h1, this]

/-- The seed loop calls `new_infection` once for every draw, duplicate or not, so the
cumulative count after `set_up_seed_infection` is `n_seed_infection`. -/
theorem set_up_seed_infection_n_infected (person : Nat → Nat) (m : model) :
    (set_up_seed_infection person m).n_infected = m.params.n_seed_infection := by
  simp [set_up_seed_infection, seed_loop_n_infected]

/-- C5, seed infection count, evaluated on a duplicate draw: with `n_seed_infection = 2`
and both draws equal to individual `0` of a population of two, the cumulative count after
construction is `2`, although the draws are not distinct and individual `0` is the only
one infected. -/
theorem seed_count_duplicate_draw :
    (new_model ⟨2, 1, 1, 10, 2⟩ (fun _ => 1) (fun _ => 0)).n_infected = 2
    ∧ ((new_model ⟨2, 1, 1, 10, 2⟩ (fun _ => 1) (fun _ => 0)).population 0).status
        = Status.PRESYMPTOMATIC
    ∧ ((new_model ⟨2, 1, 1, 10, 2⟩ (fun _ => 1) (fun _ => 0)).population 1).status
        = Status.UNINFECTED := by
  decide

/-- The statuses right after construction: the drawn individuals of the population are
presymptomatic, the others uninfected. -/
theorem new_model_status (params : parameters) (n_mean person : Nat → Nat) (x : Nat)
    (hx : x < params.n_total) :
    ((new_model params n_mean person).population x).status
      = if ∃ i, i < params.n_seed_infection ∧ person i = x then Status.PRESYMPTOMATIC
        else Status.UNINFECTED := by
  simp only [new_model, set_up_seed_infection]
  rw [seed_loop_status]
  simp [set_up_events, set_up_interactions, set_up_population, calloc_model,
    set_up_population_loop_apply, hx, initialize_individual]

/-- C6, seed infection status: when the population is uninfected before
`set_up_seed_infection`, as it is in `new_model`, then right after it an individual of
the population is presymptomatic exactly when its index is one of the
`n_seed_infection` draws, and every other individual is still uninfected. -/
theorem seed_infection_status (person : Nat → Nat) (m : model) (x : Nat)
    (hx : x < m.params.n_total)
    (hinit : ∀ y, y < m.params.n_total → (m.population y).status = Status.UNINFECTED) :
    (((set_up_seed_infection person m).population x).status = Status.PRESYMPTOMATIC
        ↔ ∃ i, i < m.params.n_seed_infection ∧ person i = x)
    ∧ ((¬ ∃ i, i < m.params.n_seed_infection ∧ person i = x) →
        ((set_up_seed_infection person m).population x).status = Status.UNINFECTED) := by
  have h : ((set_up_seed_infection person m).population x).status
      = if ∃ i, i < m.params.n_seed_infection ∧ person i = x then Status.PRESYMPTOMATIC
        else Status.UNINFECTED := by
    simp only [set_up_seed_infection]
    rw [seed_loop_status]
    show (if _ then _ else (m.population x).status) = _
    rw [hinit x hx]
  rw [h]
  by_cases hd : ∃ i, i < m.params.n_seed_infection ∧ person i = x
  · simp [hd]
  · simp [hd]

/-! ## The pairing loop as a fold -/

theorem scanned_length (s : List Nat) (n : Nat) : (scanned s n).length = n := by
  simp [scanned]

theorem scanned_getElem (s : List Nat) (n i : Nat) (h : i < (scanned s n).length) :
    (scanned s n)[i] = s.getD i 0 := by
  simp [scanned]

theorem scanned_of_length (s : List Nat) : scanned s s.length = s := by
  apply List.ext_getElem
  · simp [scanned]
  · intro i h1 h2
    simp [scanned, List.getD_eq_getElem?_getD, List.getElem?_eq_getElem h2]

theorem pairs_short (l : List Nat) (h : l.length ≤ 1) : pairs l = [] := by
  match l, h with
  | [], _ => rfl
  | [_], _ => rfl
  | _ :: _ :: _, h => simp at h

theorem pair_loop_eq_fold (day : Nat) (s : List Nat) (n : Nat) :
    ∀ (k idx : Nat) (m : model) (taken : List Nat), n - idx ≤ k →
      pair_loop day s ((n : Int) - 1) idx m taken
        = pair_fold day (pairs ((scanned s n).drop idx)) m taken := by
  intro k
  induction k with
  | zero =>
    intro idx m taken hk
    have hc : ¬ ((idx : Int) < (n : Int) - 1) := by omega
    rw [pair_loop, if_neg hc, pairs_short]
    · rfl
    · simp [scanned_length]; omega
  | succ k ih =>
    intro idx m taken hk
    by_cases h : idx + 1 < n
    · have hc : (idx : Int) < (n : Int) - 1 := by omega
      have h0 : idx < (scanned s n).length := by rw [scanned_length]; omega
      have h1 : idx + 1 < (scanned s n).length := by rw [scanned_length]; omega
      have hd : (scanned s n).drop idx
          = s.getD idx 0 :: s.getD (idx + 1) 0 :: (scanned s n).drop (idx + 2) := by
        rw [List.drop_eq_getElem_cons h0, List.drop_eq_getElem_cons h1, scanned_getElem,
          scanned_getElem]
      have hd1 : (scanned s n).drop (idx + 1)
          = s.getD (idx + 1) 0 :: (scanned s n).drop (idx + 2) := by
        rw [List.drop_eq_getElem_cons h1, scanned_getElem]
      rw [pair_loop, if_pos hc, hd]
      by_cases he : s.getD idx 0 = s.getD (idx + 1) 0
      · rw [if_pos he, ih (idx + 1) m taken (by omega), hd1]
        simp only [pairs, he, if_true]
      · rw [if_neg he, ih (idx + 2) _ _ (by omega)]
        simp only [pairs, he, if_false, pair_fold]
    · have hc : ¬ ((idx : Int) < (n : Int) - 1) := by omega
      rw [pair_loop, if_neg hc, pairs_short]
      · rfl
      · simp [scanned_length]; omega

theorem build_daily_newtork_taken_eq (f : List Nat → List Nat) (m : model) :
    build_daily_newtork_taken f m
      = pair_fold m.interaction_day_idx (daily_pairs f m)
          { m with population :=
              (reset_counts m.interaction_day_idx m.params.n_total m.population) } [] := by
  simp only [build_daily_newtork_taken]
  rw [pair_loop_eq_fold _ _ _ m.n_possible_interactions 0 _ _ (by omega)]
  rfl

theorem pairs_ne : ∀ (l : List Nat) (p : Nat × Nat), p ∈ pairs l → p.1 ≠ p.2
  | [], p, h => by simp [pairs] at h
  | [_], p, h => by simp [pairs] at h
  | a :: b :: rest, p, h => by
    by_cases he : a = b
    · simp only [pairs, he, if_true] at h
      exact pairs_ne (b :: rest) p h
    · simp only [pairs, he, if_false, List.mem_cons] at h
      rcases h with h | h
      · subst h; exact he
      · exact pairs_ne rest p h

theorem pairs_length : ∀ (l : List Nat), 2 * (pairs l).length ≤ l.length
  | [] => by simp [pairs]
  | [_] => by simp [pairs]
  | a :: b :: rest => by
    by_cases he : a = b
    · simp only [pairs, he, if_true]
      have := pairs_length (b :: rest)
      simp only [List.length_cons] at this ⊢
      omega
    · simp only [pairs, he, if_false, List.length_cons]
      have := pairs_length rest
      omega

theorem daily_pairs_ne (f : List Nat → List Nat) (m : model) (p : Nat × Nat)
    (h : p ∈ daily_pairs f m) : p.1 ≠ p.2 :=
  pairs_ne _ p h

theorem daily_pairs_length (f : List Nat → List Nat) (m : model) :
    2 * (daily_pairs f m).length ≤ m.n_possible_interactions := by
  have := pairs_length (scanned (f (template_copy m)) m.n_possible_interactions)
  rwa [scanned_length] at this

theorem link_interactions (day inter indiv other : Nat) (m : model) :
    (link day inter indiv other m).interactions
      = Function.update m.interactions inter
          { individual := some other, next := (m.population indiv).interactions day } := rfl

theorem link_population_ne (day inter indiv other : Nat) (m : model) (x : Nat) (h : x ≠ indiv) :
    (link day inter indiv other m).population x = m.population x := by
  simp [link, Function.update_noteq h]

theorem link_head (day inter indiv other : Nat) (m : model) (d : Nat) :
    ((link day inter indiv other m).population indiv).interactions d
      = if d = day then some inter else (m.population indiv).interactions d := by
  simp [link, Function.update_apply]

theorem link_count (day inter indiv other : Nat) (m : model) (d : Nat) :
    ((link day inter indiv other m).population indiv).n_interactions d
      = if d = day then (m.population indiv).n_interactions d + 1
        else (m.population indiv).n_interactions d := by
  by_cases h : d = day
  · subst h; simp [link]
  · simp [link, Function.update_noteq h, h]

theorem link_status (day inter indiv other : Nat) (m : model) (x : Nat) :
    ((link day inter indiv other m).population x).status = (m.population x).status := by
  by_cases h : x = indiv
  · subst h; simp [link]
  · rw [link_population_ne _ _ _ _ _ _ h]

theorem link_n_mean (day inter indiv other : Nat) (m : model) (x : Nat) :
    ((link day inter indiv other m).population x).n_mean_interactions
      = (m.population x).n_mean_interactions := by
  by_cases h : x = indiv
  · subst h; simp [link]
  · rw [link_population_ne _ _ _ _ _ _ h]


theorem pair_body_cases (day a b : Nat) (m : model) :
    pair_body day a b m
        = link day (m.interaction_idx + 1) b a
            (link day m.interaction_idx a b { m with interaction_idx := m.interaction_idx + 2 })
    ∨ pair_body day a b m
        = { link day (m.interaction_idx + 1) b a
            (link day m.interaction_idx a b { m with interaction_idx := m.interaction_idx + 2 })
            with interaction_idx := 0 } := by
  unfold pair_body
  simp only
  split
  · right; rfl
  · left; rfl

theorem pair_body_interaction_idx (day a b : Nat) (m : model) :
    (pair_body day a b m).interaction_idx = next_cursor m.n_interactions m.interaction_idx := by
  unfold pair_body next_cursor
  simp only
  split <;> rename_i h
  · have h2 : m.interaction_idx + 2 > m.n_interactions := h
    simp [h2]
  · have h2 : ¬ m.interaction_idx + 2 > m.n_interactions := h
    simp only [h2, if_false]
    rfl

theorem pair_body_n_interactions (day a b : Nat) (m : model) :
    (pair_body day a b m).n_interactions = m.n_interactions := by
  rcases pair_body_cases day a b m with h | h <;> rw [h] <;> rfl

theorem pair_body_interactions (day a b : Nat) (m : model) (hab : a ≠ b) :
    (pair_body day a b m).interactions
      = Function.update
          (Function.update m.interactions m.interaction_idx
            { individual := some b, next := (m.population a).interactions day })
          (m.interaction_idx + 1)
          { individual := some a, next := (m.population b).interactions day } := by
  have hl : (link day m.interaction_idx a b
      { m with interaction_idx := m.interaction_idx + 2 }).population b = m.population b :=
    link_population_ne _ _ _ _ _ _ (Ne.symm hab)
  rcases pair_body_cases day a b m with h | h <;> rw [h]
  · rw [link_interactions, hl]; rfl
  · show (link _ _ _ _ _).interactions = _
    rw [link_interactions, hl]; rfl

theorem pair_body_population (day a b : Nat) (m : model) :
    (pair_body day a b m).population
      = (link day (m.interaction_idx + 1) b a
          (link day m.interaction_idx a b m)).population := by
  rcases pair_body_cases day a b m with h | h <;> rw [h] <;> rfl

theorem pair_body_population_ne (day a b : Nat) (m : model) (x : Nat) (ha : x ≠ a)
    (hb : x ≠ b) : (pair_body day a b m).population x = m.population x := by
  rw [pair_body_population, link_population_ne _ _ _ _ _ _ hb, link_population_ne _ _ _ _ _ _ ha]

theorem pair_body_head_fst (day a b : Nat) (m : model) (hab : a ≠ b) (d : Nat) :
    ((pair_body day a b m).population a).interactions d
      = if d = day then some m.interaction_idx else (m.population a).interactions d := by
  rw [pair_body_population, link_population_ne _ _ _ _ _ _ hab, link_head]

theorem pair_body_head_snd (day a b : Nat) (m : model) (hab : a ≠ b) (d : Nat) :
    ((pair_body day a b m).population b).interactions d
      = if d = day then some (m.interaction_idx + 1) else (m.population b).interactions d := by
  rw [pair_body_population, link_head, link_population_ne _ _ _ _ _ _ (Ne.symm hab)]

theorem pair_body_count_fst (day a b : Nat) (m : model) (hab : a ≠ b) (d : Nat) :
    ((pair_body day a b m).population a).n_interactions d
      = if d = day then (m.population a).n_interactions d + 1
        else (m.population a).n_interactions d := by
  rw [pair_body_population, link_population_ne _ _ _ _ _ _ hab, link_count]

theorem pair_body_count_snd (day a b : Nat) (m : model) (hab : a ≠ b) (d : Nat) :
    ((pair_body day a b m).population b).n_interactions d
      = if d = day then (m.population b).n_interactions d + 1
        else (m.population b).n_interactions d := by
  rw [pair_body_population, link_count, link_population_ne _ _ _ _ _ _ (Ne.symm hab)]

theorem pair_body_status (day a b : Nat) (m : model) (x : Nat) :
    ((pair_body day a b m).population x).status = (m.population x).status := by
  rw [pair_body_population, link_status, link_status]

theorem pair_body_n_mean (day a b : Nat) (m : model) (x : Nat) :
    ((pair_body day a b m).population x).n_mean_interactions
      = (m.population x).n_mean_interactions := by
  rw [pair_body_population, link_n_mean, link_n_mean]

theorem pair_body_head_other_day (day a b : Nat) (m : model) (x d : Nat) (hd : d ≠ day) :
    ((pair_body day a b m).population x).interactions d = (m.population x).interactions d := by
  rw [pair_body_population]
  by_cases hb : x = b
  · subst hb
    rw [link_head, if_neg hd]
    by_cases ha : x = a
    · subst ha; rw [link_head, if_neg hd]
    · rw [link_population_ne _ _ _ _ _ _ ha]
  · rw [link_population_ne _ _ _ _ _ _ hb]
    by_cases ha : x = a
    · subst ha; rw [link_head, if_neg hd]
    · rw [link_population_ne _ _ _ _ _ _ ha]

theorem pair_body_count_other_day (day a b : Nat) (m : model) (x d : Nat) (hd : d ≠ day) :
    ((pair_body day a b m).population x).n_interactions d
      = (m.population x).n_interactions d := by
  rw [pair_body_population]
  by_cases hb : x = b
  · subst hb
    rw [link_count, if_neg hd]
    by_cases ha : x = a
    · subst ha; rw [link_count, if_neg hd]
    · rw [link_population_ne _ _ _ _ _ _ ha]
  · rw [link_population_ne _ _ _ _ _ _ hb]
    by_cases ha : x = a
    · subst ha; rw [link_count, if_neg hd]
    · rw [link_population_ne _ _ _ _ _ _ ha]

theorem pair_body_same (day a b : Nat) (m : model) :
    SameOutsideNetwork m (pair_body day a b m) := by
  rcases pair_body_cases day a b m with h | h <;> rw [h] <;>
    exact ⟨rfl, rfl, rfl, rfl, rfl, rfl, rfl, rfl, rfl, rfl, rfl⟩

theorem same_outside_refl (m : model) : SameOutsideNetwork m m :=
  ⟨rfl, rfl, rfl, rfl, rfl, rfl, rfl, rfl, rfl, rfl, rfl⟩

theorem same_outside_trans {m m1 m2 : model} (h1 : SameOutsideNetwork m m1)
    (h2 : SameOutsideNetwork m1 m2) : SameOutsideNetwork m m2 := by
  obtain ⟨a1, a2, a3, a4, a5, a6, a7, a8, a9, a10, a11⟩ := h1
  obtain ⟨b1, b2, b3, b4, b5, b6, b7, b8, b9, b10, b11⟩ := h2
  exact ⟨b1.trans a1, b2.trans a2, b3.trans a3, b4.trans a4, b5.trans a5, b6.trans a6,
    b7.trans a7, b8.trans a8, b9.trans a9, b10.trans a10, b11.trans a11⟩

theorem pair_fold_same (day : Nat) : ∀ (ps : List (Nat × Nat)) (m : model) (taken : List Nat),
    SameOutsideNetwork m (pair_fold day ps m taken).1
  | [], m, _ => same_outside_refl m
  | p :: ps, m, _ =>
    same_outside_trans (pair_body_same day p.1 p.2 m) (pair_fold_same day ps _ _)

theorem pair_fold_taken (day : Nat) : ∀ (ps : List (Nat × Nat)) (m : model) (taken : List Nat),
    (pair_fold day ps m taken).2
      = taken ++ write_log m.n_interactions ps.length m.interaction_idx
  | [], m, taken => by simp [pair_fold, write_log]
  | p :: ps, m, taken => by
    simp only [pair_fold, List.length_cons, write_log]
    rw [pair_fold_taken day ps, pair_body_n_interactions, pair_body_interaction_idx]
    simp

theorem pair_fold_interaction_idx (day : Nat) :
    ∀ (ps : List (Nat × Nat)) (m : model) (taken : List Nat),
    (pair_fold day ps m taken).1.interaction_idx
      = cursor_after m.n_interactions ps.length m.interaction_idx
  | [], _, _ => rfl
  | p :: ps, m, taken => by
    simp only [pair_fold, List.length_cons, cursor_after]
    rw [pair_fold_interaction_idx day ps, pair_body_n_interactions, pair_body_interaction_idx]

theorem pair_fold_status (day : Nat) : ∀ (ps : List (Nat × Nat)) (m : model) (taken : List Nat)
    (x : Nat), ((pair_fold day ps m taken).1.population x).status = (m.population x).status
  | [], m, _, x => rfl
  | p :: ps, m, taken, x => by
    simp only [pair_fold]
    rw [pair_fold_status day ps, pair_body_status]

theorem pair_fold_n_mean (day : Nat) : ∀ (ps : List (Nat × Nat)) (m : model) (taken : List Nat)
    (x : Nat), ((pair_fold day ps m taken).1.population x).n_mean_interactions
      = (m.population x).n_mean_interactions
  | [], m, _, x => rfl
  | p :: ps, m, taken, x => by
    simp only [pair_fold]
    rw [pair_fold_n_mean day ps, pair_body_n_mean]

theorem pair_fold_head_other_day (day : Nat) : ∀ (ps : List (Nat × Nat)) (m : model)
    (taken : List Nat) (x d : Nat), d ≠ day →
    ((pair_fold day ps m taken).1.population x).interactions d = (m.population x).interactions d
  | [], m, _, x, d, _ => rfl
  | p :: ps, m, taken, x, d, hd => by
    simp only [pair_fold]
    rw [pair_fold_head_other_day day ps _ _ x d hd, pair_body_head_other_day _ _ _ _ _ _ hd]

theorem pair_fold_count_other_day (day : Nat) : ∀ (ps : List (Nat × Nat)) (m : model)
    (taken : List Nat) (x d : Nat), d ≠ day →
    ((pair_fold day ps m taken).1.population x).n_interactions d
      = (m.population x).n_interactions d
  | [], m, _, x, d, _ => rfl
  | p :: ps, m, taken, x, d, hd => by
    simp only [pair_fold]
    rw [pair_fold_count_other_day day ps _ _ x d hd, pair_body_count_other_day _ _ _ _ _ _ hd]

/-- A record outside the indices taken by the loop keeps its content. -/
theorem pair_fold_interactions_outside (day : Nat) : ∀ (ps : List (Nat × Nat)) (m : model)
    (taken : List Nat), (∀ p ∈ ps, p.1 ≠ p.2) → ∀ (i : Nat),
    i ∉ write_log m.n_interactions ps.length m.interaction_idx →
    (pair_fold day ps m taken).1.interactions i = m.interactions i
  | [], m, _, _, i, _ => rfl
  | p :: ps, m, taken, hne, i, hi => by
    simp only [List.length_cons, write_log, List.mem_cons, not_or] at hi
    simp only [pair_fold]
    rw [pair_fold_interactions_outside day ps _ _ (fun q hq => hne q (List.mem_cons_of_mem _ hq))
      i (by rw [pair_body_n_interactions, pair_body_interaction_idx]; exact hi.2.2)]
    rw [pair_body_interactions _ _ _ _ (hne p (List.mem_cons_self _ _)),
      Function.update_noteq hi.2.1, Function.update_noteq hi.1]

theorem reset_counts_apply (day : Nat) (n : Nat) (pop : Nat → individual) (x : Nat) :
    reset_counts day n pop x
      = if x < n then
          { pop x with n_interactions := (Function.update (pop x).n_interactions day 0) }
        else pop x := by
  induction n with
  | zero => simp [reset_counts]
  | succ n ih =>
    simp only [reset_counts]
    by_cases h : x = n
    · subst h
      rw [Function.update_same, ih]
      simp
    · rw [Function.update_noteq h, ih]
      by_cases h1 : x < n
      · simp [h1, Nat.lt_succ_of_lt h1]
      · have : ¬ x < n + 1 := by omega
        simp [h1, this]

/-! ## Adjacency lists after the pairing loop -/

theorem isList_congr {mem mem1 : Nat → interaction} :
    ∀ {h : Option Nat} {recs cs : List Nat}, (∀ r ∈ recs, mem1 r = mem r) →
      IsList mem h recs cs → IsList mem1 h recs cs
  | _, [], [], _, _ => by simp [IsList]
  | none, [], _ :: _, _, hl => by simp [IsList] at hl
  | some _, [], _ :: _, _, hl => by simp [IsList] at hl
  | none, _ :: _, [], _, hl => by simp [IsList] at hl
  | some _, _ :: _, [], _, hl => by simp [IsList] at hl
  | none, _ :: _, _ :: _, _, hl => by simp [IsList] at hl
  | some p, r :: recs, c :: cs, hm, hl => by
    simp only [IsList] at hl ⊢
    obtain ⟨h1, h2, h3⟩ := hl
    have hr : mem1 r = mem r := hm r (List.mem_cons_self _ _)
    refine ⟨h1, by rw [hr]; exact h2, ?_⟩
    rw [hr]
    exact isList_congr (fun q hq => hm q (List.mem_cons_of_mem _ hq)) h3

theorem isList_length_eq {mem : Nat → interaction} :
    ∀ {h : Option Nat} {recs cs : List Nat}, IsList mem h recs cs → recs.length = cs.length
  | _, [], [], _ => rfl
  | none, [], _ :: _, hl => by simp [IsList] at hl
  | some _, [], _ :: _, hl => by simp [IsList] at hl
  | none, _ :: _, [], hl => by simp [IsList] at hl
  | some _, _ :: _, [], hl => by simp [IsList] at hl
  | none, _ :: _, _ :: _, hl => by simp [IsList] at hl
  | some p, r :: recs, c :: cs, hl => by
    simp only [IsList] at hl
    simp [isList_length_eq hl.2.2]

theorem isList_contacts {mem : Nat → interaction} :
    ∀ {h : Option Nat} {recs cs : List Nat}, IsList mem h recs cs →
      list_contacts mem recs.length h = some cs
  | _, [], [], _ => by simp [list_contacts]
  | none, [], _ :: _, hl => by simp [IsList] at hl
  | some _, [], _ :: _, hl => by simp [IsList] at hl
  | none, _ :: _, [], hl => by simp [IsList] at hl
  | some _, _ :: _, [], hl => by simp [IsList] at hl
  | none, _ :: _, _ :: _, hl => by simp [IsList] at hl
  | some p, r :: recs, c :: cs, hl => by
    simp only [IsList] at hl
    obtain ⟨h1, h2, h3⟩ := hl
    subst h1
    simp [list_contacts, h2, isList_contacts h3]

theorem isList_of_contacts {mem : Nat → interaction} :
    ∀ (n : Nat) (h : Option Nat) (cs : List Nat), list_contacts mem n h = some cs →
      ∃ recs, IsList mem h recs cs ∧ recs.length = n
  | 0, _, cs, hc => by
    simp only [list_contacts, Option.some.injEq] at hc
    subst hc
    exact ⟨[], by simp [IsList], rfl⟩
  | _ + 1, none, _, hc => by simp [list_contacts] at hc
  | n + 1, some p, cs, hc => by
    simp only [list_contacts] at hc
    cases hi : (mem p).individual with
    | none => simp [hi] at hc
    | some x =>
      simp only [hi, Option.map_eq_some'] at hc
      obtain ⟨cs1, h1, h2⟩ := hc
      obtain ⟨recs, h3, h4⟩ := isList_of_contacts n _ cs1 h1
      subst h2
      exact ⟨p :: recs, by simp [IsList, hi, h3], by simp [h4]⟩

theorem partners_symm : ∀ (ps : List (Nat × Nat)), (∀ p ∈ ps, p.1 ≠ p.2) → ∀ (a b : Nat),
    (partners a ps).count b = (partners b ps).count a
  | [], _, _, _ => rfl
  | p :: ps, hne, a, b => by
    have ih := partners_symm ps (fun q hq => hne q (List.mem_cons_of_mem _ hq)) a b
    have hp := hne p (List.mem_cons_self _ _)
    simp only [partners]
    by_cases h1 : p.1 = a <;> by_cases h2 : p.2 = a <;> by_cases h3 : p.1 = b <;>
      by_cases h4 : p.2 = b <;>
      simp_all [List.count_cons]

theorem not_mem_partners_self : ∀ (ps : List (Nat × Nat)), (∀ p ∈ ps, p.1 ≠ p.2) →
    ∀ (a : Nat), a ∉ partners a ps
  | [], _, _ => by simp [partners]
  | (u, v) :: ps, hne, a => by
    have ih := not_mem_partners_self ps (fun q hq => hne q (List.mem_cons_of_mem _ hq)) a
    have hp : u ≠ v := hne (u, v) (List.mem_cons_self _ _)
    simp only [partners]
    by_cases h1 : u = a
    · subst h1
      simp only [if_true, List.mem_cons, not_or]
      exact ⟨hp, ih⟩
    · by_cases h2 : v = a
      · subst h2
        simp only [h1, if_false, if_true, List.mem_cons, not_or]
        exact ⟨Ne.symm hp, ih⟩
      · simp only [h1, h2, if_false]
        exact ih

/-- The effect of the pairing loop on one adjacency list of the current day-slot: the
new records are prepended, one for each pair the individual is in. -/
theorem pair_fold_lists (day : Nat) : ∀ (ps : List (Nat × Nat)) (m : model) (taken : List Nat),
    (∀ p ∈ ps, p.1 ≠ p.2) →
    (write_log m.n_interactions ps.length m.interaction_idx).Nodup →
    ∀ (x : Nat) (recs cs : List Nat),
      IsList m.interactions ((m.population x).interactions day) recs cs →
      (m.population x).n_interactions day = recs.length →
      (∀ r ∈ recs, r ∉ write_log m.n_interactions ps.length m.interaction_idx) →
      ∃ recs1,
        IsList (pair_fold day ps m taken).1.interactions
          (((pair_fold day ps m taken).1.population x).interactions day)
          (recs1 ++ recs) ((partners x ps).reverse ++ cs)
        ∧ ((pair_fold day ps m taken).1.population x).n_interactions day
            = recs1.length + recs.length
        ∧ ∀ r ∈ recs1, r ∈ write_log m.n_interactions ps.length m.interaction_idx
  | [], m, taken, _, _, x, recs, cs, hl, hn, _ => by
    exact ⟨[], by simpa [pair_fold, partners] using hl, by simpa [pair_fold] using hn, by simp⟩
  | (a, b) :: ps, m, taken, hne, hnd, x, recs, cs, hl, hn, hfresh => by
    have hp : a ≠ b := hne (a, b) (List.mem_cons_self _ _)
    have hne1 : ∀ q ∈ ps, q.1 ≠ q.2 := fun q hq => hne q (List.mem_cons_of_mem _ hq)
    simp only [List.length_cons, write_log, List.nodup_cons, List.mem_cons, not_or] at hnd hfresh
    obtain ⟨⟨hc1, hc2⟩, hc3, hnd1⟩ := hnd
    have hN : (pair_body day a b m).n_interactions = m.n_interactions :=
      pair_body_n_interactions _ _ _ _
    have hI : (pair_body day a b m).interaction_idx
        = next_cursor m.n_interactions m.interaction_idx := pair_body_interaction_idx _ _ _ _
    have hmem : ∀ r ∈ recs, (pair_body day a b m).interactions r = m.interactions r := by
      intro r hr
      rw [pair_body_interactions _ _ _ _ hp, Function.update_noteq (hfresh r hr).2.1,
        Function.update_noteq (hfresh r hr).1]
    have hl1 : IsList (pair_body day a b m).interactions
        ((m.population x).interactions day) recs cs := isList_congr hmem hl
    simp only [pair_fold, List.length_cons, write_log]
    by_cases h1 : a = x
    · -- `x` is the first individual of the pair
      subst h1
      have hrec : (pair_body day a b m).interactions m.interaction_idx
          = { individual := some b, next := (m.population a).interactions day } := by
        rw [pair_body_interactions _ _ _ _ hp,
          Function.update_noteq (Nat.ne_of_lt (Nat.lt_succ_self _)), Function.update_same]
      have hl2 : IsList (pair_body day a b m).interactions
          (((pair_body day a b m).population a).interactions day)
          (m.interaction_idx :: recs) (b :: cs) := by
        rw [pair_body_head_fst day a b m hp day, if_pos rfl]
        simp only [IsList, hrec, true_and]
        exact hl1
      have hn2 : ((pair_body day a b m).population a).n_interactions day
          = (m.interaction_idx :: recs).length := by
        rw [pair_body_count_fst day a b m hp day, if_pos rfl, hn]
        rfl
      obtain ⟨recs1, i1, i2, i3⟩ := pair_fold_lists day ps (pair_body day a b m)
        (taken ++ [m.interaction_idx, m.interaction_idx + 1]) hne1
        (by rw [hN, hI]; exact hnd1) a (m.interaction_idx :: recs) (b :: cs) hl2 hn2
        (by
          rw [hN, hI]
          intro r hr
          rcases List.mem_cons.mp hr with h | h
          · subst h; exact hc2
          · exact (hfresh r h).2.2)
      rw [hN, hI] at i3
      refine ⟨recs1 ++ [m.interaction_idx], ?_, ?_, ?_⟩
      · simpa [partners] using i1
      · rw [i2]; simp; omega
      · intro r hr
        rcases List.mem_append.mp hr with h | h
        · exact List.mem_cons_of_mem _ (List.mem_cons_of_mem _ (i3 r h))
        · rw [List.mem_singleton.mp h]; exact List.mem_cons_self _ _
    · by_cases h2 : b = x
      · -- `x` is the second individual of the pair
        subst h2
        have hrec : (pair_body day a b m).interactions (m.interaction_idx + 1)
            = { individual := some a, next := (m.population b).interactions day } := by
          rw [pair_body_interactions _ _ _ _ hp, Function.update_same]
        have hl2 : IsList (pair_body day a b m).interactions
            (((pair_body day a b m).population b).interactions day)
            ((m.interaction_idx + 1) :: recs) (a :: cs) := by
          rw [pair_body_head_snd day a b m hp day, if_pos rfl]
          simp only [IsList, hrec, true_and]
          exact hl1
        have hn2 : ((pair_body day a b m).population b).n_interactions day
            = ((m.interaction_idx + 1) :: recs).length := by
          rw [pair_body_count_snd day a b m hp day, if_pos rfl, hn]
          rfl
        obtain ⟨recs1, i1, i2, i3⟩ := pair_fold_lists day ps (pair_body day a b m)
          (taken ++ [m.interaction_idx, m.interaction_idx + 1]) hne1
          (by rw [hN, hI]; exact hnd1) b ((m.interaction_idx + 1) :: recs) (a :: cs) hl2 hn2
          (by
            rw [hN, hI]
            intro r hr
            rcases List.mem_cons.mp hr with h | h
            · subst h; exact hc3
            · exact (hfresh r h).2.2)
        rw [hN, hI] at i3
        refine ⟨recs1 ++ [m.interaction_idx + 1], ?_, ?_, ?_⟩
        · simpa [partners, h1] using i1
        · rw [i2]; simp; omega
        · intro r hr
          rcases List.mem_append.mp hr with h | h
          · exact List.mem_cons_of_mem _ (List.mem_cons_of_mem _ (i3 r h))
          · rw [List.mem_singleton.mp h]
            exact List.mem_cons_of_mem _ (List.mem_cons_self _ _)
      · -- `x` is not in the pair
        have hpop : (pair_body day a b m).population x = m.population x :=
          pair_body_population_ne _ _ _ _ _ (Ne.symm h1) (Ne.symm h2)
        obtain ⟨recs1, i1, i2, i3⟩ := pair_fold_lists day ps (pair_body day a b m)
          (taken ++ [m.interaction_idx, m.interaction_idx + 1]) hne1
          (by rw [hN, hI]; exact hnd1) x recs cs (by rw [hpop]; exact hl1)
          (by rw [hpop]; exact hn)
          (by rw [hN, hI]; exact fun r hr => (hfresh r hr).2.2)
        rw [hN, hI] at i3
        refine ⟨recs1, ?_, i2, ?_⟩
        · simpa [partners, h1, h2] using i1
        · exact fun r hr => List.mem_cons_of_mem _ (List.mem_cons_of_mem _ (i3 r hr))

theorem write_log_ge (N : Nat) : ∀ (k c : Nat), (∀ i ∈ write_log N k c, i < N) →
    ∀ i ∈ write_log N k c, c ≤ i
  | 0, _, _, i, hi => by simp [write_log] at hi
  | k + 1, c, hlt, i, hi => by
    have h1 : c + 1 < N := hlt (c + 1) (by simp [write_log])
    have hn : next_cursor N c = c + 2 := by
      unfold next_cursor
      rw [if_neg (by omega)]
    simp only [write_log, hn, List.mem_cons] at hi hlt
    rcases hi with h | h | h
    · omega
    · omega
    · have := write_log_ge N k (c + 2) (fun j hj => hlt j (Or.inr (Or.inr hj))) i h
      omega

theorem write_log_nodup_of_lt (N : Nat) : ∀ (k c : Nat), (∀ i ∈ write_log N k c, i < N) →
    (write_log N k c).Nodup
  | 0, _, _ => by simp [write_log]
  | k + 1, c, hlt => by
    have h1 : c + 1 < N := hlt (c + 1) (by simp [write_log])
    have hn : next_cursor N c = c + 2 := by
      unfold next_cursor
      rw [if_neg (by omega)]
    simp only [write_log, hn, List.mem_cons] at hlt
    have hlt2 : ∀ j ∈ write_log N k (c + 2), j < N := fun j hj => hlt j (Or.inr (Or.inr hj))
    have hge := write_log_ge N k (c + 2) hlt2
    simp only [write_log, hn, List.nodup_cons, List.mem_cons, not_or]
    refine ⟨⟨by omega, fun h => ?_⟩, fun h => ?_, write_log_nodup_of_lt N k (c + 2) hlt2⟩
    · have := hge c h; omega
    · have := hge (c + 1) h; omega

/-- The adjacency list of an individual of the population after a build whose record
indices are pairwise different: its partners in the pairs of the day, last pair first. -/
theorem adjacency_build (f : List Nat → List Nat) (m : model) (x : Nat)
    (hx : x < m.params.n_total)
    (hnd : (write_log m.n_interactions (daily_pairs f m).length m.interaction_idx).Nodup) :
    adjacency (build_daily_newtork f m) m.interaction_day_idx x
      = some (partners x (daily_pairs f m)).reverse := by
  have h0 : ((reset_counts m.interaction_day_idx m.params.n_total m.population) x).n_interactions
      m.interaction_day_idx = 0 := by
    rw [reset_counts_apply, if_pos hx]
    simp
  obtain ⟨recs1, i1, i2, -⟩ := pair_fold_lists m.interaction_day_idx (daily_pairs f m)
    { m with population := (reset_counts m.interaction_day_idx m.params.n_total m.population) }
    [] (daily_pairs_ne f m) hnd x [] [] (by simp [IsList]) h0 (by simp)
  simp only [List.append_nil, List.length_nil, Nat.add_zero] at i1 i2
  unfold adjacency build_daily_newtork
  rw [build_daily_newtork_taken_eq, i2]
  exact isList_contacts i1

/-- C1, adjacency symmetry: after a daily network build whose records all lie inside the
interaction arena, for two individuals `A` and `B` of the population the adjacency lists
of the current day-slot exist, `B` occurs in the list of `A` as often as `A` occurs in the
list of `B`, and so `B` is in the list of `A` exactly when `A` is in the list of `B`. -/
theorem adjacency_symmetry (f : List Nat → List Nat) (m : model) (A B : Nat)
    (hA : A < m.params.n_total) (hB : B < m.params.n_total)
    (hfit : ∀ i ∈ (build_daily_newtork_taken f m).2, i < m.n_interactions) :
    ∃ la lb,
      adjacency (build_daily_newtork f m) m.interaction_day_idx A = some la
      ∧ adjacency (build_daily_newtork f m) m.interaction_day_idx B = some lb
      ∧ la.count B = lb.count A
      ∧ (B ∈ la ↔ A ∈ lb) := by
  rw [build_daily_newtork_taken_eq, pair_fold_taken] at hfit
  simp only [List.nil_append] at hfit
  have hnd := write_log_nodup_of_lt _ _ _ hfit
  have hc : (partners A (daily_pairs f m)).reverse.count B
      = (partners B (daily_pairs f m)).reverse.count A := by
    rw [List.count_reverse, List.count_reverse]
    exact partners_symm _ (daily_pairs_ne f m) A B
  refine ⟨_, _, adjacency_build f m A hA hnd, adjacency_build f m B hB hnd, hc, ?_⟩
  rw [← List.count_pos_iff, ← List.count_pos_iff, hc]

theorem adjacency_symmetry_witness :
    ((0 : Nat) < (new_model ⟨2, 1, 1, 10, 1⟩ (fun _ => 1) (fun _ => 0)).params.n_total
      ∧ (1 : Nat) < (new_model ⟨2, 1, 1, 10, 1⟩ (fun _ => 1) (fun _ => 0)).params.n_total
      ∧ ∀ i ∈ (build_daily_newtork_taken id
            (new_model ⟨2, 1, 1, 10, 1⟩ (fun _ => 1) (fun _ => 0))).2,
          i < (new_model ⟨2, 1, 1, 10, 1⟩ (fun _ => 1) (fun _ => 0)).n_interactions)
    ∧ ∃ la lb,
      adjacency (build_daily_newtork id (new_model ⟨2, 1, 1, 10, 1⟩ (fun _ => 1) (fun _ => 0)))
          (new_model ⟨2, 1, 1, 10, 1⟩ (fun _ => 1) (fun _ => 0)).interaction_day_idx 0 = some la
      ∧ adjacency (build_daily_newtork id (new_model ⟨2, 1, 1, 10, 1⟩ (fun _ => 1) (fun _ => 0)))
          (new_model ⟨2, 1, 1, 10, 1⟩ (fun _ => 1) (fun _ => 0)).interaction_day_idx 1 = some lb
      ∧ la.count 1 = lb.count 0
      ∧ (1 ∈ la ↔ 0 ∈ lb) := by
  have h : ∀ i ∈ (build_daily_newtork_taken id
      (new_model ⟨2, 1, 1, 10, 1⟩ (fun _ => 1) (fun _ => 0))).2,
      i < (new_model ⟨2, 1, 1, 10, 1⟩ (fun _ => 1) (fun _ => 0)).n_interactions := by
    rw [build_daily_newtork_taken_eq]
    decide
  exact ⟨⟨by decide, by decide, h⟩, adjacency_symmetry id _ 0 1 (by decide) (by decide) h⟩

/-! ## What transmission leaves in place -/

theorem infection_frame_refl (m : model) : InfectionFrame m m :=
  ⟨rfl, rfl, rfl, rfl, rfl, rfl, rfl, rfl, Nat.le_refl _, Nat.le_refl _, fun _ _ => rfl,
    fun _ _ => ⟨rfl, rfl⟩, fun _ => ⟨rfl, rfl, rfl, Or.inl rfl⟩⟩

theorem infection_frame_trans {m m1 m2 : model} (h1 : InfectionFrame m m1)
    (h2 : InfectionFrame m1 m2) : InfectionFrame m m2 := by
  obtain ⟨a1, a2, a3, a4, a5, a6, a7, a8, a9, a10, a11, a12, a13⟩ := h1
  obtain ⟨b1, b2, b3, b4, b5, b6, b7, b8, b9, b10, b11, b12, b13⟩ := h2
  refine ⟨b1.trans a1, b2.trans a2, b3.trans a3, b4.trans a4, b5.trans a5, b6.trans a6,
    b7.trans a7, b8.trans a8, Nat.le_trans a9 b9, Nat.le_trans a10 b10, ?_, ?_, ?_⟩
  · intro e he
    rw [b11 e (Nat.lt_of_lt_of_le he a10), a11 e he]
  · intro d hd
    have hd1 : d ≠ m1.time := by rw [a2]; exact hd
    exact ⟨(b12 d hd1).1.trans (a12 d hd).1, (b12 d hd1).2.trans (a12 d hd).2⟩
  · intro x
    obtain ⟨c1, c2, c3, c4⟩ := a13 x
    obtain ⟨d1, d2, d3, d4⟩ := b13 x
    refine ⟨d1.trans c1, d2.trans c2, d3.trans c3, ?_⟩
    rcases d4 with h | h
    · rcases c4 with h' | h'
      · exact Or.inl (h.trans h')
      · exact Or.inr (h.trans h')
    · exact Or.inr h

theorem new_infection_frame (m : model) (x : Nat) : InfectionFrame m (new_infection m x) := by
  refine ⟨rfl, rfl, rfl, rfl, rfl, rfl, rfl, rfl, ?_, ?_, ?_, ?_, ?_⟩
  · simp
  · simp
  · intro e he
    rw [new_infection_events, Function.update_noteq (Nat.ne_of_lt he)]
  · intro d hd
    rw [new_infection_infected, new_infection_n_infected_daily, Function.update_noteq hd,
      Function.update_noteq hd]
    exact ⟨rfl, rfl⟩
  · intro y
    refine ⟨new_infection_n_interactions_of m x y, new_infection_interactions_of m x y,
      new_infection_n_mean_interactions m x y, ?_⟩
    rw [new_infection_status]
    by_cases h : y = x
    · exact Or.inr (if_pos h)
    · exact Or.inl (if_neg h)

theorem infect_frame (m : model) (x : Nat) : InfectionFrame m (infect m x) := by
  unfold infect
  split
  · exact new_infection_frame m x
  · exact infection_frame_refl m

theorem infect_all_nil (m : model) : infect_all [] m = m := rfl

theorem infect_all_cons (x : Nat) (cs : List Nat) (m : model) :
    infect_all (x :: cs) m = infect_all cs (infect m x) := rfl

theorem infect_all_append (as bs : List Nat) (m : model) :
    infect_all (as ++ bs) m = infect_all bs (infect_all as m) := by
  simp [infect_all, List.foldl_append]

theorem infect_all_frame : ∀ (cs : List Nat) (m : model), InfectionFrame m (infect_all cs m)
  | [], m => infection_frame_refl m
  | x :: cs, m => infection_frame_trans (infect_frame m x) (infect_all_frame cs (infect m x))

theorem list_contacts_congr {mem mem1 : Nat → interaction} (h : mem1 = mem) (n : Nat)
    (hd : Option Nat) : list_contacts mem1 n hd = list_contacts mem n hd := by
  rw [h]

/-- The contact loop of `transmit_virus` infects the contacts of the list in order; it has
a result exactly when the list has the `n` records the loop reads. -/
theorem contact_loop_eq : ∀ (n : Nat) (hd : Option Nat) (m : model),
    contact_loop n hd m = (list_contacts m.interactions n hd).map fun cs => infect_all cs m
  | 0, _, m => by simp [contact_loop, list_contacts, infect_all]
  | _ + 1, none, _ => by simp [contact_loop, list_contacts]
  | n + 1, some p, m => by
    simp only [contact_loop, list_contacts]
    cases hi : (m.interactions p).individual with
    | none => simp
    | some x =>
      have hf := infect_frame m x
      have hmem : (infect m x).interactions = m.interactions := hf.2.2.1
      simp only
      rw [show (if (m.population x).status = Status.UNINFECTED then new_infection m x else m)
        = infect m x from rfl]
      rw [contact_loop_eq n _ (infect m x), hmem]
      cases list_contacts m.interactions n (m.interactions p).next with
      | none => simp
      | some cs => simp [infect_all_cons]

theorem contact_loop_frame (n : Nat) (hd : Option Nat) (m m1 : model)
    (h : contact_loop n hd m = some m1) : InfectionFrame m m1 := by
  rw [contact_loop_eq] at h
  cases hc : list_contacts m.interactions n hd with
  | none => simp [hc] at h
  | some cs =>
    simp only [hc, Option.map_some', Option.some.injEq] at h
    rw [← h]
    exact infect_all_frame cs m

theorem event_loop_frame : ∀ (n : Nat) (hd : Option Nat) (m m1 : model),
    event_loop n hd m = some m1 → InfectionFrame m m1
  | 0, _, m, m1, h => by
    simp only [event_loop, Option.some.injEq] at h
    rw [← h]; exact infection_frame_refl m
  | _ + 1, none, _, _, h => by simp [event_loop] at h
  | n + 1, some e, m, m1, h => by
    simp only [event_loop] at h
    cases hi : (m.events e).individual with
    | none => simp [hi] at h
    | some y =>
      simp only [hi, Option.bind_eq_some] at h
      obtain ⟨m2, h1, h2⟩ := h
      exact infection_frame_trans (contact_loop_frame _ _ _ _ h1) (event_loop_frame n _ m2 m1 h2)

theorem day_loop_frame : ∀ (d : Nat) (m m1 : model), day_loop d m = some m1 →
    InfectionFrame m m1
  | 0, m, m1, h => by
    simp only [day_loop, Option.some.injEq] at h
    rw [← h]; exact infection_frame_refl m
  | d + 1, m, m1, h => by
    simp only [day_loop, Option.bind_eq_some] at h
    obtain ⟨m2, h1, h2⟩ := h
    exact infection_frame_trans (event_loop_frame _ _ _ _ h1) (day_loop_frame d m2 m1 h2)

theorem transmit_virus_frame (m m1 : model) (h : transmit_virus m = some m1) :
    InfectionFrame m m1 :=
  day_loop_frame _ _ _ h

/-! ## What one time step leaves in place -/

theorem build_daily_newtork_same (f : List Nat → List Nat) (m : model) :
    SameOutsideNetwork m (build_daily_newtork f m) := by
  unfold build_daily_newtork
  rw [build_daily_newtork_taken_eq]
  exact pair_fold_same _ _ _ _

theorem build_daily_newtork_status (f : List Nat → List Nat) (m : model) (x : Nat) :
    ((build_daily_newtork f m).population x).status = (m.population x).status := by
  unfold build_daily_newtork
  rw [build_daily_newtork_taken_eq, pair_fold_status]
  simp only [reset_counts_apply]
  split <;> rfl

theorem build_daily_newtork_n_mean (f : List Nat → List Nat) (m : model) (x : Nat) :
    ((build_daily_newtork f m).population x).n_mean_interactions
      = (m.population x).n_mean_interactions := by
  unfold build_daily_newtork
  rw [build_daily_newtork_taken_eq, pair_fold_n_mean]
  simp only [reset_counts_apply]
  split <;> rfl

/-- The state of `one_time_step` between `build_daily_newtork` and `transmit_virus`. -/
theorem one_time_step_some (f : List Nat → List Nat) (m : model) (r : Int × model)
    (h : one_time_step f m = some r) :
    ∃ m3, transmit_virus (build_daily_newtork f { m with time := m.time + 1 }) = some m3
      ∧ r = (1, { m3 with interaction_day_idx :=
          (ring_inc m3.interaction_day_idx m3.params.days_of_interactions) }) := by
  simp only [one_time_step, Option.map_eq_some'] at h
  obtain ⟨m3, h1, h2⟩ := h
  exact ⟨m3, h1, h2.symm⟩

/-- The frame of one time step. -/
theorem one_time_step_frame (f : List Nat → List Nat) (m : model) (r : Int × model)
    (h : one_time_step f m = some r) :
    r.1 = 1 ∧ r.2.params = m.params ∧ r.2.time = m.time + 1
    ∧ r.2.interaction_day_idx = ring_inc m.interaction_day_idx m.params.days_of_interactions
    ∧ r.2.possible_interactions = m.possible_interactions
    ∧ r.2.n_possible_interactions = m.n_possible_interactions
    ∧ r.2.n_interactions = m.n_interactions
    ∧ m.n_infected ≤ r.2.n_infected
    ∧ m.event_idx ≤ r.2.event_idx
    ∧ (∀ x, (r.2.population x).n_mean_interactions = (m.population x).n_mean_interactions)
    ∧ (∀ x, (r.2.population x).status = (m.population x).status
        ∨ (r.2.population x).status = Status.PRESYMPTOMATIC) := by
  obtain ⟨m3, h1, h2⟩ := one_time_step_some f m r h
  obtain ⟨a1, a2, a3, a4, a5, a6, a7, a8, a9, a10, -, -, a13⟩ := transmit_virus_frame _ _ h1
  obtain ⟨b1, b2, b3, b4, b5, b6, b7, b8, b9, b10, b11⟩ :=
    build_daily_newtork_same f { m with time := m.time + 1 }
  subst h2
  refine ⟨rfl, a1.trans b1, a2.trans b2, ?_, a7.trans b5, a8.trans b6, a4.trans b3, ?_, ?_,
    ?_, ?_⟩
  · show ring_inc m3.interaction_day_idx m3.params.days_of_interactions = _
    rw [a6, b4, a1, b1]
  · show m.n_infected ≤ m3.n_infected
    rw [b11] at a9; exact a9
  · show m.event_idx ≤ m3.event_idx
    rw [b8] at a10; exact a10
  · intro x
    show (m3.population x).n_mean_interactions = _
    rw [(a13 x).2.2.1, build_daily_newtork_n_mean]
  · intro x
    show (m3.population x).status = _ ∨ (m3.population x).status = _
    have := (a13 x).2.2.2
    rw [build_daily_newtork_status] at this
    exact this

/-- The frame of a sequence of time steps. -/
theorem run_frame : ∀ (fs : List (List Nat → List Nat)) (m m1 : model), run fs m = some m1 →
    m1.params = m.params ∧ m1.time = m.time + fs.length
    ∧ m1.possible_interactions = m.possible_interactions
    ∧ m1.n_possible_interactions = m.n_possible_interactions
    ∧ m1.n_interactions = m.n_interactions
    ∧ m.n_infected ≤ m1.n_infected
    ∧ (∀ x, (m1.population x).n_mean_interactions = (m.population x).n_mean_interactions)
    ∧ (∀ x, (m1.population x).status = (m.population x).status
        ∨ (m1.population x).status = Status.PRESYMPTOMATIC)
  | [], m, m1, h => by
    simp only [run, Option.some.injEq] at h
    subst h
    exact ⟨rfl, rfl, rfl, rfl, rfl, Nat.le_refl _, fun _ => rfl, fun _ => Or.inl rfl⟩
  | f :: fs, m, m1, h => by
    simp only [run, Option.bind_eq_some] at h
    obtain ⟨r, h1, h2⟩ := h
    obtain ⟨-, a1, a2, -, a3, a4, a5, a6, -, a7, a8⟩ := one_time_step_frame f m r h1
    obtain ⟨b1, b2, b3, b4, b5, b6, b7, b8⟩ := run_frame fs r.2 m1 h2
    refine ⟨b1.trans a1, ?_, b3.trans a3, b4.trans a4, b5.trans a5, Nat.le_trans a6 b6, ?_, ?_⟩
    · rw [b2, a2, List.length_cons]; omega
    · intro x; rw [b7 x, a7 x]
    · intro x
      rcases b8 x with h | h
      · rcases a8 x with h' | h'
        · exact Or.inl (h.trans h')
        · exact Or.inr (h.trans h')
      · exact Or.inr h

theorem template_copy_congr {m m1 : model}
    (h1 : m1.possible_interactions = m.possible_interactions)
    (h2 : m1.n_possible_interactions = m.n_possible_interactions) :
    template_copy m1 = template_copy m := by
  simp [template_copy, h1, h2]

/-- C10, monotonic infection count: one time step does not decrease the cumulative
infection count, neither does a sequence of steps, and along the steps an individual that
is not uninfected stays not uninfected. -/
theorem infection_count_monotone :
    (∀ (f : List Nat → List Nat) (m : model) (r : Int × model), one_time_step f m = some r →
        m.n_infected ≤ r.2.n_infected
        ∧ ∀ x, (m.population x).status ≠ Status.UNINFECTED →
            (r.2.population x).status ≠ Status.UNINFECTED)
    ∧ (∀ (fs : List (List Nat → List Nat)) (m m1 : model), run fs m = some m1 →
        m.n_infected ≤ m1.n_infected
        ∧ ∀ x, (m.population x).status ≠ Status.UNINFECTED →
            (m1.population x).status ≠ Status.UNINFECTED) := by
  constructor
  · intro f m r h
    obtain ⟨-, -, -, -, -, -, -, a6, -, -, a8⟩ := one_time_step_frame f m r h
    refine ⟨a6, fun x hx => ?_⟩
    rcases a8 x with h' | h'
    · rw [h']; exact hx
    · rw [h']; decide
  · intro fs m m1 h
    obtain ⟨-, -, -, -, -, a6, -, a8⟩ := run_frame fs m m1 h
    refine ⟨a6, fun x hx => ?_⟩
    rcases a8 x with h' | h'
    · rw [h']; exact hx
    · rw [h']; decide

/-! ## The record indices taken from the arena -/

/-- Without a reset of the cursor the records taken are consecutive. -/
theorem write_log_no_reset (N : Nat) : ∀ (k c : Nat), c + 2 * k ≤ N + 2 →
    ∀ i ∈ write_log N k c, c ≤ i ∧ i < c + 2 * k
  | 0, _, _, i, hi => by simp [write_log] at hi
  | k + 1, c, hk, i, hi => by
    simp only [write_log, List.mem_cons] at hi
    rcases hi with h | h | h
    · omega
    · omega
    · by_cases hc : c + 2 ≤ N
      · have hn : next_cursor N c = c + 2 := by
          unfold next_cursor
          rw [if_neg (by omega)]
        rw [hn] at h
        have := write_log_no_reset N k (c + 2) (by omega) i h
        omega
      · have hk0 : k = 0 := by omega
        subst hk0
        simp [write_log] at h

/-- As long as at most `N + 1` records are taken, no record index is taken twice, also
across a reset of the cursor. -/
theorem write_log_nodup (N : Nat) : ∀ (k c : Nat), 2 * k ≤ N + 1 →
    (write_log N k c).Nodup ∧ ∀ i ∈ write_log N k c, c ≤ i ∨ i + N + 2 ≤ c + 2 * k
  | 0, _, _ => by simp [write_log]
  | k + 1, c, hk => by
    by_cases hc : c + 2 ≤ N
    · have hn : next_cursor N c = c + 2 := by
        unfold next_cursor
        rw [if_neg (by omega)]
      obtain ⟨ih1, ih2⟩ := write_log_nodup N k (c + 2) (by omega)
      simp only [write_log, hn, List.nodup_cons, List.mem_cons, not_or]
      refine ⟨⟨⟨by omega, fun h => ?_⟩, fun h => ?_, ih1⟩, ?_⟩
      · rcases ih2 c h with h' | h' <;> omega
      · rcases ih2 (c + 1) h with h' | h' <;> omega
      · intro i hi
        rcases hi with h | h | h
        · omega
        · omega
        · rcases ih2 i h with h' | h' <;> omega
    · have hn : next_cursor N c = 0 := by
        unfold next_cursor
        rw [if_pos (by omega)]
      obtain ⟨ih1, -⟩ := write_log_nodup N k 0 (by omega)
      have hA := write_log_no_reset N k 0 (by omega)
      simp only [write_log, hn, List.nodup_cons, List.mem_cons, not_or]
      refine ⟨⟨⟨by omega, fun h => ?_⟩, fun h => ?_, ih1⟩, ?_⟩
      · have := hA c h; omega
      · have := hA (c + 1) h; omega
      · intro i hi
        rcases hi with h | h | h
        · omega
        · omega
        · have := hA i h; omega

/-- What a build does to the arena and to the lists of the other day-slots. -/
theorem build_daily_newtork_arena (f : List Nat → List Nat) (m : model) :
    (build_daily_newtork f m).interaction_idx
        = cursor_after m.n_interactions (daily_pairs f m).length m.interaction_idx
    ∧ (∀ i, i ∉ write_log m.n_interactions (daily_pairs f m).length m.interaction_idx →
        (build_daily_newtork f m).interactions i = m.interactions i)
    ∧ (∀ x d, d ≠ m.interaction_day_idx →
        ((build_daily_newtork f m).population x).interactions d = (m.population x).interactions d
        ∧ ((build_daily_newtork f m).population x).n_interactions d
            = (m.population x).n_interactions d) := by
  unfold build_daily_newtork
  rw [build_daily_newtork_taken_eq]
  refine ⟨pair_fold_interaction_idx _ _ _ _, ?_, ?_⟩
  · intro i hi
    exact pair_fold_interactions_outside _ _ _ _ (daily_pairs_ne f m) i hi
  · intro x d hd
    rw [pair_fold_head_other_day _ _ _ _ _ _ hd, pair_fold_count_other_day _ _ _ _ _ _ hd]
    simp only [reset_counts_apply]
    split
    · exact ⟨rfl, by simp [Function.update_noteq hd]⟩
    · exact ⟨rfl, rfl⟩

theorem one_time_step_arena (f : List Nat → List Nat) (m : model) (r : Int × model)
    (h : one_time_step f m = some r) :
    r.2.interaction_idx
        = cursor_after m.n_interactions (daily_pairs f m).length m.interaction_idx
    ∧ (∀ i, i ∉ write_log m.n_interactions (daily_pairs f m).length m.interaction_idx →
        r.2.interactions i = m.interactions i)
    ∧ (∀ x d, d ≠ m.interaction_day_idx →
        (r.2.population x).interactions d = (m.population x).interactions d
        ∧ (r.2.population x).n_interactions d = (m.population x).n_interactions d) := by
  obtain ⟨m3, h1, h2⟩ := one_time_step_some f m r h
  obtain ⟨-, -, a3, -, a5, -, -, -, -, -, -, -, a13⟩ := transmit_virus_frame _ _ h1
  obtain ⟨b1, b2, b3⟩ := build_daily_newtork_arena f { m with time := m.time + 1 }
  subst h2
  refine ⟨?_, ?_, ?_⟩
  · show m3.interaction_idx = _
    rw [a5, b1]; rfl
  · intro i hi
    show m3.interactions i = _
    rw [a3, b2 i hi]
  · intro x d hd
    show (m3.population x).interactions d = _ ∧ (m3.population x).n_interactions d = _
    rw [(a13 x).1, (a13 x).2.1]
    exact b3 x d hd

theorem cursor_after_no_reset (N : Nat) : ∀ (k c : Nat), c + 2 * k ≤ N →
    cursor_after N k c = c + 2 * k
  | 0, _, _ => rfl
  | k + 1, c, h => by
    have hn : next_cursor N c = c + 2 := by
      unfold next_cursor
      rw [if_neg (by omega)]
    simp only [cursor_after, hn]
    rw [cursor_after_no_reset N k (c + 2) (by omega)]
    omega

/-- The records of one build are inside the arena when the arena has room for them from
the cursor on. -/
theorem build_in_arena_of_room (f : List Nat → List Nat) (m : model)
    (h : m.interaction_idx + 2 * (daily_pairs f m).length ≤ m.n_interactions) :
    ∀ i ∈ (build_daily_newtork_taken f m).2, i < m.n_interactions := by
  intro i hi
  rw [build_daily_newtork_taken_eq, pair_fold_taken, List.nil_append] at hi
  have := write_log_no_reset m.n_interactions (daily_pairs f m).length m.interaction_idx
    (by omega) i hi
  omega

/-- A sequence of time steps is inside the arena when the arena has room, from the
cursor on, for the records of a whole template for every step. -/
theorem in_arena_of_room : ∀ (fs : List (List Nat → List Nat)) (m : model),
    m.interaction_idx + fs.length * m.n_possible_interactions ≤ m.n_interactions →
    in_arena fs m
  | [], _, _ => trivial
  | f :: fs, m, h => by
    have hk : 2 * (daily_pairs f m).length ≤ m.n_possible_interactions :=
      daily_pairs_length f m
    rw [List.length_cons, Nat.add_mul, Nat.one_mul] at h
    refine ⟨?_, ?_⟩
    · exact build_in_arena_of_room f { m with time := m.time + 1 }
        (by show m.interaction_idx + 2 * (daily_pairs f m).length ≤ m.n_interactions
            omega)
    · intro r hr
      obtain ⟨a1, -, -⟩ := one_time_step_arena f m r hr
      obtain ⟨-, -, -, -, -, p3, p4, -⟩ := one_time_step_frame f m r hr
      apply in_arena_of_room fs r.2
      rw [a1, p3, p4, cursor_after_no_reset _ _ _ (by omega)]
      omega

theorem isEventList_congr {mem mem1 : Nat → event} :
    ∀ {h : Option Nat} {recs cs : List Nat}, (∀ r ∈ recs, mem1 r = mem r) →
      IsEventList mem h recs cs → IsEventList mem1 h recs cs
  | _, [], [], _, _ => by simp [IsEventList]
  | none, [], _ :: _, _, hl => by simp [IsEventList] at hl
  | some _, [], _ :: _, _, hl => by simp [IsEventList] at hl
  | none, _ :: _, [], _, hl => by simp [IsEventList] at hl
  | some _, _ :: _, [], _, hl => by simp [IsEventList] at hl
  | none, _ :: _, _ :: _, _, hl => by simp [IsEventList] at hl
  | some p, r :: recs, c :: cs, hm, hl => by
    simp only [IsEventList] at hl ⊢
    obtain ⟨h1, h2, h3⟩ := hl
    have hr : mem1 r = mem r := hm r (List.mem_cons_self _ _)
    refine ⟨h1, by rw [hr]; exact h2, ?_⟩
    rw [hr]
    exact isEventList_congr (fun q hq => hm q (List.mem_cons_of_mem _ hq)) h3

theorem isEventList_infected {mem : Nat → event} :
    ∀ {h : Option Nat} {recs cs : List Nat}, IsEventList mem h recs cs →
      list_infected mem recs.length h = some cs
  | _, [], [], _ => by simp [list_infected]
  | none, [], _ :: _, hl => by simp [IsEventList] at hl
  | some _, [], _ :: _, hl => by simp [IsEventList] at hl
  | none, _ :: _, [], hl => by simp [IsEventList] at hl
  | some _, _ :: _, [], hl => by simp [IsEventList] at hl
  | none, _ :: _, _ :: _, hl => by simp [IsEventList] at hl
  | some p, r :: recs, c :: cs, hl => by
    simp only [IsEventList] at hl
    obtain ⟨h1, h2, h3⟩ := hl
    subst h1
    simp [list_infected, h2, isEventList_infected h3]

theorem isEventList_records {mem : Nat → event} :
    ∀ {h : Option Nat} {recs cs : List Nat}, IsEventList mem h recs cs →
      list_records (fun p => (mem p).next) recs.length h = some recs
  | _, [], [], _ => by simp [list_records]
  | none, [], _ :: _, hl => by simp [IsEventList] at hl
  | some _, [], _ :: _, hl => by simp [IsEventList] at hl
  | none, _ :: _, [], hl => by simp [IsEventList] at hl
  | some _, _ :: _, [], hl => by simp [IsEventList] at hl
  | none, _ :: _, _ :: _, hl => by simp [IsEventList] at hl
  | some p, r :: recs, c :: cs, hl => by
    simp only [IsEventList] at hl
    obtain ⟨h1, h2, h3⟩ := hl
    subst h1
    simp [list_records, isEventList_records h3]

theorem isEventList_of_lists {mem : Nat → event} :
    ∀ (n : Nat) (h : Option Nat) (recs cs : List Nat),
      list_records (fun p => (mem p).next) n h = some recs →
      list_infected mem n h = some cs → IsEventList mem h recs cs ∧ recs.length = n
  | 0, _, recs, cs, hr, hc => by
    simp only [list_records, list_infected, Option.some.injEq] at hr hc
    subst hr; subst hc
    exact ⟨by simp [IsEventList], rfl⟩
  | _ + 1, none, _, _, hr, _ => by simp [list_records] at hr
  | n + 1, some p, recs, cs, hr, hc => by
    simp only [list_records, list_infected, Option.map_eq_some'] at hr hc
    obtain ⟨recs1, r1, r2⟩ := hr
    cases hi : (mem p).individual with
    | none => simp [hi] at hc
    | some x =>
      simp only [hi, Option.map_eq_some'] at hc
      obtain ⟨cs1, c1, c2⟩ := hc
      obtain ⟨i1, i2⟩ := isEventList_of_lists n _ recs1 cs1 r1 c1
      subst r2; subst c2
      exact ⟨by simp [IsEventList, hi, i1], by simp [i2]⟩

theorem adjacency_frame {m m1 : model} (h : InfectionFrame m m1) (day x : Nat) :
    adjacency m1 day x = adjacency m day x := by
  obtain ⟨-, -, a3, -, -, -, -, -, -, -, -, -, a13⟩ := h
  unfold adjacency
  rw [a3, (a13 x).1, (a13 x).2.1]

theorem contacts_of_frame {m m1 : model} (h : InfectionFrame m m1) :
    ∀ ys : List Nat, contacts_of m1 ys = contacts_of m ys
  | [] => rfl
  | y :: ys => by
    simp only [contacts_of]
    rw [contacts_of_frame h ys, h.2.2.2.2.2.1, adjacency_frame h]

theorem contacts_of_some (m : model) : ∀ (ys : List Nat),
    (∀ y ∈ ys, ∃ cs, adjacency m m.interaction_day_idx y = some cs) →
    ∃ cs, contacts_of m ys = some cs
      ∧ ∀ x, x ∈ cs ↔ ∃ y a, y ∈ ys ∧ adjacency m m.interaction_day_idx y = some a ∧ x ∈ a
  | [], _ => ⟨[], rfl, by simp⟩
  | y :: ys, h => by
    obtain ⟨a, ha⟩ := h y (List.mem_cons_self _ _)
    obtain ⟨b, hb, hb2⟩ := contacts_of_some m ys (fun z hz => h z (List.mem_cons_of_mem _ hz))
    refine ⟨a ++ b, by simp [contacts_of, ha, hb], ?_⟩
    intro x
    rw [List.mem_append, hb2]
    constructor
    · rintro (hx | ⟨z, c, hz, hc, hx⟩)
      · exact ⟨y, a, List.mem_cons_self _ _, ha, hx⟩
      · exact ⟨z, c, List.mem_cons_of_mem _ hz, hc, hx⟩
    · rintro ⟨z, c, hz, hc, hx⟩
      rcases List.mem_cons.mp hz with e | e
      · subst e
        rw [ha] at hc
        cases hc
        exact Or.inl hx
      · exact Or.inr ⟨z, c, e, hc, hx⟩

/-- The event loop of `transmit_virus` on a list whose records are already handed out:
the contacts of the infectors are infected in order. -/
theorem event_loop_eq : ∀ (recs infs : List Nat) (hd : Option Nat) (m : model) (cs : List Nat),
    IsEventList m.events hd recs infs → (∀ r ∈ recs, r < m.event_idx) →
    contacts_of m infs = some cs →
    event_loop recs.length hd m = some (infect_all cs m)
  | [], [], _, m, cs, _, _, hc => by
    simp only [contacts_of, Option.some.injEq] at hc
    subst hc
    simp [event_loop, infect_all]
  | [], _ :: _, none, _, _, hl, _, _ => by simp [IsEventList] at hl
  | [], _ :: _, some _, _, _, hl, _, _ => by simp [IsEventList] at hl
  | _ :: _, [], none, _, _, hl, _, _ => by simp [IsEventList] at hl
  | _ :: _, [], some _, _, _, hl, _, _ => by simp [IsEventList] at hl
  | _ :: _, _ :: _, none, _, _, hl, _, _ => by simp [IsEventList] at hl
  | r :: recs, y :: infs, some e, m, cs, hl, hlt, hc => by
    simp only [IsEventList] at hl
    obtain ⟨h1, h2, h3⟩ := hl
    subst h1
    simp only [contacts_of] at hc
    cases ha : adjacency m m.interaction_day_idx y with
    | none => simp [ha] at hc
    | some a =>
      cases hb : contacts_of m infs with
      | none => simp [ha, hb] at hc
      | some b =>
        simp only [ha, hb, Option.some.injEq] at hc
        subst hc
        have hf := infect_all_frame a m
        have he : (infect_all a m).events e = m.events e :=
          hf.2.2.2.2.2.2.2.2.2.2.1 e (hlt e (List.mem_cons_self _ _))
        have hrec : ∀ q ∈ recs, (infect_all a m).events q = m.events q := fun q hq =>
          hf.2.2.2.2.2.2.2.2.2.2.1 q (hlt q (List.mem_cons_of_mem _ hq))
        have ih := event_loop_eq recs infs (m.events e).next (infect_all a m) b
          (isEventList_congr hrec h3)
          (fun q hq => Nat.lt_of_lt_of_le (hlt q (List.mem_cons_of_mem _ hq))
            hf.2.2.2.2.2.2.2.2.2.1)
          (by rw [contacts_of_frame hf]; exact hb)
        simp only [List.length_cons, event_loop, h2]
        have hcl : contact_loop ((m.population y).n_interactions m.interaction_day_idx)
            ((m.population y).interactions m.interaction_day_idx) m
            = some (infect_all a m) := by
          rw [contact_loop_eq]
          unfold adjacency at ha
          rw [ha]; rfl
        rw [hcl]
        simp only [Option.some_bind, he]
        rw [ih, infect_all_append]

theorem dayLists_frame {m m1 : model} (h : InfectionFrame m m1) {d : Nat} (hd : d ≠ m.time)
    {recs infs cs : List Nat} (hl : DayLists m d recs infs cs) : DayLists m1 d recs infs cs := by
  obtain ⟨l1, l2, l3, l4⟩ := hl
  have a10 := h.2.2.2.2.2.2.2.2.2.1
  have a11 := h.2.2.2.2.2.2.2.2.2.2.1
  have a12 := h.2.2.2.2.2.2.2.2.2.2.2.1
  refine ⟨?_, ?_, fun r hr => Nat.lt_of_lt_of_le (l3 r hr) a10, ?_⟩
  · rw [(a12 d hd).1]
    exact isEventList_congr (fun r hr => a11 r (l3 r hr)) l1
  · rw [(a12 d hd).2]; exact l2
  · rw [contacts_of_frame h]; exact l4

/-- The day loop of `transmit_virus` over days whose lists are in order: the contacts of
the days `d - 1`, ..., `0` are infected in this order. -/
theorem day_loop_eq : ∀ (d : Nat) (m : model), d ≤ m.time →
    (∀ d1, d1 < d → ∃ recs infs cs, DayLists m d1 recs infs cs) →
    ∃ cs, day_loop d m = some (infect_all cs m)
      ∧ ∀ x, x ∈ cs ↔ ∃ d1 recs infs cs1, d1 < d ∧ DayLists m d1 recs infs cs1 ∧ x ∈ cs1
  | 0, m, _, _ => ⟨[], rfl, by simp⟩
  | d + 1, m, hd, hall => by
    obtain ⟨recs, infs, cs0, hl⟩ := hall d (Nat.lt_succ_self d)
    have hev : event_loop (m.n_infected_daily d) (m.infected d) m = some (infect_all cs0 m) := by
      rw [← hl.2.1]
      exact event_loop_eq recs infs _ m cs0 hl.1 hl.2.2.1 hl.2.2.2
    have hf := infect_all_frame cs0 m
    have htime : (infect_all cs0 m).time = m.time := hf.2.1
    have hne : ∀ d1, d1 < d → d1 ≠ m.time := fun d1 h1 => by omega
    obtain ⟨cs1, h1, h2⟩ := day_loop_eq d (infect_all cs0 m) (by rw [htime]; omega)
      (fun d1 h1 => by
        obtain ⟨r1, i1, c1, l1⟩ := hall d1 (Nat.lt_succ_of_lt h1)
        exact ⟨r1, i1, c1, dayLists_frame hf (hne d1 h1) l1⟩)
    refine ⟨cs0 ++ cs1, ?_, ?_⟩
    · simp only [day_loop, hev, Option.some_bind, h1, infect_all_append]
    · intro x
      rw [List.mem_append, h2]
      constructor
      · rintro (hx | ⟨d1, r1, i1, c1, hd1, l1, hx⟩)
        · exact ⟨d, recs, infs, cs0, Nat.lt_succ_self d, hl, hx⟩
        · obtain ⟨r2, i2, c2, l2⟩ := hall d1 (Nat.lt_succ_of_lt hd1)
          have l3 := dayLists_frame hf (hne d1 hd1) l2
          have e1 : some i1 = some i2 := by
            rw [← isEventList_infected l1.1, ← isEventList_infected l3.1, l1.2.1, l3.2.1]
          cases e1
          have e2 : some c1 = some c2 := by rw [← l1.2.2.2, ← l3.2.2.2]
          cases e2
          exact ⟨d1, r2, i1, c1, Nat.lt_succ_of_lt hd1, l2, hx⟩
      · rintro ⟨d1, r1, i1, c1, hd1, l1, hx⟩
        rcases Nat.lt_succ_iff_lt_or_eq.mp hd1 with h | h
        · exact Or.inr ⟨d1, r1, i1, c1, h, dayLists_frame hf (hne d1 h) l1, hx⟩
        · subst h
          have e1 : some i1 = some infs := by
            rw [← isEventList_infected l1.1, ← isEventList_infected hl.1, l1.2.1, hl.2.1]
          cases e1
          have e2 : some c1 = some cs0 := by rw [← l1.2.2.2, ← hl.2.2.2]
          cases e2
          exact Or.inl hx

theorem consistent_day_lists {m : model} (h : Consistent m) (d : Nat) (hd : d < m.time) :
    ∃ recs infs cs, DayLists m d recs infs cs := by
  obtain ⟨recs, infs, h1, h2, h3, h4⟩ := h d hd
  obtain ⟨cs, h5, -⟩ := contacts_of_some m infs h4
  obtain ⟨i1, i2⟩ := isEventList_of_lists _ _ recs infs h1 h3
  exact ⟨recs, infs, cs, i1, i2, h2, h5⟩

theorem contacts_of_mem (m : model) : ∀ (ys cs : List Nat), contacts_of m ys = some cs →
    ∀ x, x ∈ cs ↔ ∃ y a, y ∈ ys ∧ adjacency m m.interaction_day_idx y = some a ∧ x ∈ a
  | [], cs, h, x => by
    simp only [contacts_of, Option.some.injEq] at h
    subst h; simp
  | y :: ys, cs, h, x => by
    simp only [contacts_of] at h
    cases ha : adjacency m m.interaction_day_idx y with
    | none => simp [ha] at h
    | some a =>
      cases hb : contacts_of m ys with
      | none => simp [ha, hb] at h
      | some b =>
        simp only [ha, hb, Option.some.injEq] at h
        subst h
        rw [List.mem_append, contacts_of_mem m ys b hb x]
        constructor
        · rintro (hx | ⟨z, c, hz, hc, hx⟩)
          · exact ⟨y, a, List.mem_cons_self _ _, ha, hx⟩
          · exact ⟨z, c, List.mem_cons_of_mem _ hz, hc, hx⟩
        · rintro ⟨z, c, hz, hc, hx⟩
          rcases List.mem_cons.mp hz with e | e
          · subst e
            rw [ha] at hc
            cases hc
            exact Or.inl hx
          · exact Or.inr ⟨z, c, e, hc, hx⟩

theorem dayLists_infected_on {m : model} {d : Nat} {recs infs cs : List Nat}
    (hl : DayLists m d recs infs cs) : infected_on m d = some infs := by
  unfold infected_on
  rw [← hl.2.1]
  exact isEventList_infected hl.1

theorem exposed_iff_day_lists (m : model) (hc : Consistent m) (x : Nat) :
    Exposed m x
      ↔ ∃ d recs infs cs, d < m.time ∧ DayLists m d recs infs cs ∧ x ∈ cs := by
  constructor
  · rintro ⟨d, infs, y, a, hd, hi, hy, ha, hx⟩
    obtain ⟨recs, infs1, cs, hl⟩ := consistent_day_lists hc d hd
    have e : some infs = some infs1 := by rw [← hi, dayLists_infected_on hl]
    cases e
    exact ⟨d, recs, infs, cs, hd, hl, (contacts_of_mem m infs cs hl.2.2.2 x).mpr ⟨y, a, hy, ha, hx⟩⟩
  · rintro ⟨d, recs, infs, cs, hd, hl, hx⟩
    obtain ⟨y, a, hy, ha, hxa⟩ := (contacts_of_mem m infs cs hl.2.2.2 x).mp hx
    exact ⟨d, infs, y, a, hd, dayLists_infected_on hl, hy, ha, hxa⟩

theorem infect_status (m : model) (x y : Nat) :
    ((infect m x).population y).status
      = if y = x ∧ (m.population y).status = Status.UNINFECTED then Status.PRESYMPTOMATIC
        else (m.population y).status := by
  unfold infect
  by_cases hu : (m.population x).status = Status.UNINFECTED
  · rw [if_pos hu, new_infection_status]
    by_cases hy : y = x
    · subst hy; simp [hu]
    · simp [hy]
  · rw [if_neg hu]
    by_cases hy : y = x
    · subst hy; simp [hu]
    · simp [hy]

theorem infect_all_status : ∀ (cs : List Nat) (m : model) (y : Nat),
    ((infect_all cs m).population y).status
      = if y ∈ cs ∧ (m.population y).status = Status.UNINFECTED then Status.PRESYMPTOMATIC
        else (m.population y).status
  | [], m, y => by simp [infect_all]
  | x :: cs, m, y => by
    rw [infect_all_cons, infect_all_status cs (infect m x) y, infect_status]
    by_cases hy : y = x
    · subst hy
      by_cases hu : (m.population y).status = Status.UNINFECTED
      · simp [hu]
      · simp [hu]
    · by_cases hu : (m.population y).status = Status.UNINFECTED
      · simp [hy, hu]
      · simp [hy, hu]

theorem infect_all_n_infected : ∀ (cs : List Nat) (m : model),
    (infect_all cs m).n_infected
      = m.n_infected
        + ((cs.filter fun x => decide ((m.population x).status = Status.UNINFECTED)).toFinset).card
  | [], m => by simp [infect_all]
  | x :: cs, m => by
    rw [infect_all_cons, infect_all_n_infected cs (infect m x)]
    by_cases hu : (m.population x).status = Status.UNINFECTED
    · have hf : (cs.filter fun y => decide (((infect m x).population y).status
            = Status.UNINFECTED))
          = (cs.filter fun y => decide ((m.population y).status = Status.UNINFECTED)).filter
              fun y => decide (y ≠ x) := by
        rw [List.filter_filter]
        apply List.filter_congr
        intro y _
        rw [infect_status]
        by_cases hy : y = x
        · subst hy; simp [hu]
        · simp [hy]
      have hn : (infect m x).n_infected = m.n_infected + 1 := by
        unfold infect
        rw [if_pos hu]; rfl
      rw [hf, hn, List.filter_cons_of_pos (by simpa using hu), List.toFinset_cons,
        List.toFinset_filter]
      have h1 : (Finset.filter (fun y => decide (y ≠ x) = true)
            (cs.filter fun y => decide ((m.population y).status = Status.UNINFECTED)).toFinset)
          = ((cs.filter fun y => decide ((m.population y).status
              = Status.UNINFECTED)).toFinset).erase x := by
        ext y
        simp [Finset.mem_erase, and_comm]
      rw [h1, ← Finset.erase_insert_eq_erase,
        ← Finset.card_erase_add_one (Finset.mem_insert_self x _)]
      omega
    · have hm : infect m x = m := by
        unfold infect
        rw [if_neg hu]
      rw [hm, List.filter_cons_of_neg (by simpa using hu)]

/-! ## The states reached from construction -/

theorem pairs_mem : ∀ (l : List Nat) (p : Nat × Nat), p ∈ pairs l → p.1 ∈ l ∧ p.2 ∈ l
  | [], p, h => by simp [pairs] at h
  | [_], p, h => by simp [pairs] at h
  | a :: b :: rest, p, h => by
    by_cases he : a = b
    · simp only [pairs, he, if_true] at h
      have := pairs_mem (b :: rest) p h
      exact ⟨List.mem_cons_of_mem _ this.1, List.mem_cons_of_mem _ this.2⟩
    · simp only [pairs, he, if_false, List.mem_cons] at h
      rcases h with h | h
      · subst h; simp
      · have := pairs_mem rest p h
        exact ⟨List.mem_cons_of_mem _ (List.mem_cons_of_mem _ this.1),
          List.mem_cons_of_mem _ (List.mem_cons_of_mem _ this.2)⟩

theorem mem_partners : ∀ (ps : List (Nat × Nat)) (x y : Nat), y ∈ partners x ps →
    ∃ p ∈ ps, y = p.1 ∨ y = p.2
  | [], _, _, h => by simp [partners] at h
  | p :: ps, x, y, h => by
    simp only [partners] at h
    have ih := mem_partners ps x y
    by_cases h1 : p.1 = x
    · rw [if_pos h1] at h
      rcases List.mem_cons.mp h with e | e
      · exact ⟨p, List.mem_cons_self _ _, Or.inr e⟩
      · obtain ⟨q, hq, hy⟩ := ih e
        exact ⟨q, List.mem_cons_of_mem _ hq, hy⟩
    · rw [if_neg h1] at h
      by_cases h2 : p.2 = x
      · rw [if_pos h2] at h
        rcases List.mem_cons.mp h with e | e
        · exact ⟨p, List.mem_cons_self _ _, Or.inl e⟩
        · obtain ⟨q, hq, hy⟩ := ih e
          exact ⟨q, List.mem_cons_of_mem _ hq, hy⟩
      · rw [if_neg h2] at h
        obtain ⟨q, hq, hy⟩ := ih h
        exact ⟨q, List.mem_cons_of_mem _ hq, hy⟩

theorem mem_template_copy (m : model) (x : Nat) :
    x ∈ template_copy m ↔ ∃ i, i < m.n_possible_interactions ∧ m.possible_interactions i = x := by
  simp [template_copy]

/-- The contacts of a build under a shuffle that permutes the template are entries of
the template. -/
theorem mem_partners_daily (f : List Nat → List Nat) (m : model)
    (hf : (f (template_copy m)).Perm (template_copy m)) (x y : Nat)
    (h : y ∈ partners x (daily_pairs f m)) : y ∈ template_copy m := by
  obtain ⟨p, hp, hy⟩ := mem_partners _ x y h
  have hl : (f (template_copy m)).length = m.n_possible_interactions := by
    rw [hf.length_eq, length_template_copy]
  unfold daily_pairs at hp
  rw [← hl, scanned_of_length] at hp
  have := pairs_mem _ p hp
  rcases hy with e | e
  · rw [e]; exact hf.mem_iff.mp this.1
  · rw [e]; exact hf.mem_iff.mp this.2

theorem new_infection_events_ok (m : model) (x : Nat) (hx : x < m.params.n_total)
    (h : EventsOK m) : EventsOK (new_infection m x) := by
  intro d
  obtain ⟨recs, infs, h1, h2, h3, h4⟩ := h d
  have hcongr : ∀ r ∈ recs, (new_infection m x).events r = m.events r := by
    intro r hr
    rw [new_infection_events, Function.update_noteq (Nat.ne_of_lt (h3 r hr))]
  by_cases hd : d = m.time
  · subst hd
    refine ⟨m.event_idx :: recs, x :: infs, ?_, ?_, ?_, ?_⟩
    · rw [new_infection_infected, Function.update_same]
      simp only [IsEventList, true_and]
      rw [new_infection_events, Function.update_same]
      refine ⟨rfl, ?_⟩
      rw [← new_infection_events]
      exact isEventList_congr hcongr h1
    · rw [new_infection_n_infected_daily, Function.update_same, List.length_cons, h2]
    · intro r hr
      rw [new_infection_event_idx]
      rcases List.mem_cons.mp hr with e | e
      · omega
      · exact Nat.lt_succ_of_lt (h3 r e)
    · intro y hy
      rcases List.mem_cons.mp hy with e | e
      · rw [e]; exact hx
      · exact h4 y e
  · refine ⟨recs, infs, ?_, ?_, ?_, h4⟩
    · rw [new_infection_infected, Function.update_noteq hd]
      exact isEventList_congr hcongr h1
    · rw [new_infection_n_infected_daily, Function.update_noteq hd]; exact h2
    · intro r hr
      rw [new_infection_event_idx]
      exact Nat.lt_succ_of_lt (h3 r hr)

theorem infect_events_ok (m : model) (x : Nat) (hx : x < m.params.n_total)
    (h : EventsOK m) : EventsOK (infect m x) := by
  unfold infect
  split
  · exact new_infection_events_ok m x hx h
  · exact h

theorem infect_all_events_ok : ∀ (cs : List Nat) (m : model),
    (∀ x ∈ cs, x < m.params.n_total) → EventsOK m → EventsOK (infect_all cs m)
  | [], _, _, h => h
  | x :: cs, m, hx, h => by
    rw [infect_all_cons]
    have hp : (infect m x).params = m.params := (infect_frame m x).1
    exact infect_all_events_ok cs (infect m x)
      (fun y hy => by rw [hp]; exact hx y (List.mem_cons_of_mem _ hy))
      (infect_events_ok m x (hx x (List.mem_cons_self _ _)) h)

theorem seed_loop_params (person : Nat → Nat) (n : Nat) (m : model) :
    (seed_loop person n m).params = m.params := by
  induction n with
  | zero => rfl
  | succ n ih => simp only [seed_loop, new_infection_params, ih]

theorem seed_loop_events_ok (person : Nat → Nat) (m : model) (h : EventsOK m) :
    ∀ n, (∀ i, i < n → person i < m.params.n_total) → EventsOK (seed_loop person n m)
  | 0, _ => h
  | n + 1, hp => by
    simp only [seed_loop]
    apply new_infection_events_ok
    · rw [seed_loop_params]; exact hp n (Nat.lt_succ_self n)
    · exact seed_loop_events_ok person m h n (fun i hi => hp i (Nat.lt_succ_of_lt hi))

theorem zero_daily_apply (n : Nat) (a : Nat → Nat) (d : Nat) :
    zero_daily n a d = if d < n then 0 else a d := by
  induction n with
  | zero => simp [zero_daily]
  | succ n ih =>
    simp only [zero_daily]
    by_cases h : d = n
    · subst h; simp
    · rw [Function.update_noteq h, ih]
      by_cases h1 : d < n
      · simp [h1, Nat.lt_succ_of_lt h1]
      · have : ¬ d < n + 1 := by omega
        simp [h1, this]

theorem seed_loop_frame (person : Nat → Nat) (m : model) :
    ∀ n, InfectionFrame m (seed_loop person n m)
  | 0 => infection_frame_refl m
  | n + 1 => infection_frame_trans (seed_loop_frame person m n) (new_infection_frame _ _)

theorem set_up_population_n_mean (n_mean : Nat → Nat) (m : model) (i : Nat)
    (hi : i < m.params.n_total) :
    ((set_up_population n_mean m).population i).n_mean_interactions = n_mean i := by
  simp [set_up_population, set_up_population_loop_apply, hi, initialize_individual]

theorem set_up_model_eq (n_mean person : Nat → Nat) (m : model) :
    set_up_model n_mean person m
      = seed_loop person m.params.n_seed_infection
          { set_up_events (set_up_interactions (set_up_population n_mean m)) with
            n_infected := 0
            n_infected_daily := (zero_daily m.params.end_time m.n_infected_daily) } := rfl

theorem set_up_model_fields (n_mean person : Nat → Nat) (m : model) :
    (set_up_model n_mean person m).params = m.params
    ∧ (set_up_model n_mean person m).time = m.time
    ∧ (set_up_model n_mean person m).n_interactions
        = n_daily_interactions m.params * m.params.days_of_interactions
    ∧ (set_up_model n_mean person m).interaction_idx = 0
    ∧ (set_up_model n_mean person m).interaction_day_idx = 0
    ∧ (set_up_model n_mean person m).possible_interactions
        = (set_up_interactions (set_up_population n_mean m)).possible_interactions
    ∧ (set_up_model n_mean person m).n_possible_interactions
        = (set_up_interactions (set_up_population n_mean m)).n_possible_interactions := by
  rw [set_up_model_eq]
  obtain ⟨a1, a2, -, a4, a5, a6, a7, a8, -⟩ := seed_loop_frame person
    { set_up_events (set_up_interactions (set_up_population n_mean m)) with
      n_infected := 0
      n_infected_daily := (zero_daily m.params.end_time m.n_infected_daily) }
    m.params.n_seed_infection
  exact ⟨a1, a2, a4, a5, a6, a7, a8⟩

theorem set_up_model_n_possible (n_mean person : Nat → Nat) (m : model) :
    (set_up_model n_mean person m).n_possible_interactions
      = ∑ i in Finset.range m.params.n_total, n_mean i := by
  rw [(set_up_model_fields n_mean person m).2.2.2.2.2.2,
    set_up_interactions_n_possible (set_up_population n_mean m)]
  exact Finset.sum_congr rfl fun i hi =>
    set_up_population_n_mean n_mean m i (Finset.mem_range.mp hi)

/-- The state after the set-up calls on a model structure is well formed when the window
is at least one day, the template fits the slots allocated for it, the seeds are drawn
from the population and the structure has no count for a day that
`set_up_seed_infection` does not reset. -/
theorem set_up_model_well_formed (n_mean person : Nat → Nat) (m : model)
    (hW : 1 ≤ m.params.days_of_interactions)
    (hfit : ∑ i in Finset.range m.params.n_total, n_mean i ≤ n_daily_interactions m.params)
    (hseed : ∀ i, i < m.params.n_seed_infection → person i < m.params.n_total)
    (hdaily : ∀ d, m.params.end_time ≤ d → m.n_infected_daily d = 0) :
    WellFormed (set_up_model n_mean person m) := by
  have c3 := mem_template_set_up_interactions (set_up_population n_mean m)
  obtain ⟨f1, -, f3, -, -, f6, f7⟩ := set_up_model_fields n_mean person m
  refine ⟨?_, ?_, ?_⟩
  · rw [set_up_model_n_possible, f3]
    calc ∑ i in Finset.range m.params.n_total, n_mean i
        ≤ n_daily_interactions m.params * 1 := by rw [Nat.mul_one]; exact hfit
      _ ≤ n_daily_interactions m.params * m.params.days_of_interactions :=
        Nat.mul_le_mul_left _ hW
      _ ≤ _ := Nat.le_succ _
  · intro i hi
    rw [f7] at hi
    rw [f6, f1]
    exact c3 _ ((mem_template_copy _ _).mpr ⟨i, hi, rfl⟩)
  · rw [set_up_model_eq]
    apply seed_loop_events_ok
    · intro d
      refine ⟨[], [], ?_, ?_, by simp, by simp⟩
      · simp [IsEventList]
      · show 0 = zero_daily m.params.end_time m.n_infected_daily d
        rw [zero_daily_apply]
        split
        · rfl
        · exact (hdaily d (by omega)).symm
    · exact hseed

/-- The state `new_model` is written to build is well formed when the window is at least
one day, the template fits the slots allocated for it and the seeds are drawn from the
population. -/
theorem new_model_well_formed (params : parameters) (n_mean person : Nat → Nat)
    (hW : 1 ≤ params.days_of_interactions)
    (hfit : ∑ i in Finset.range params.n_total, n_mean i ≤ n_daily_interactions params)
    (hseed : ∀ i, i < params.n_seed_infection → person i < params.n_total) :
    WellFormed (new_model params n_mean person) :=
  set_up_model_well_formed n_mean person (calloc_model params) hW hfit hseed (fun _ _ => rfl)

/-- After a build on a well-formed state under a shuffle that permutes the template,
`transmit_virus` has a result: it infects a sequence of individuals of the population,
and the state it starts from is consistent. -/
theorem transmit_after_build (f : List Nat → List Nat) (m : model) (hw : WellFormed m)
    (hf : (f (template_copy m)).Perm (template_copy m)) :
    ∃ cs, transmit_virus (build_daily_newtork f m) = some (infect_all cs (build_daily_newtork f m))
      ∧ (∀ x ∈ cs, x < m.params.n_total)
      ∧ Consistent (build_daily_newtork f m) := by
  obtain ⟨w1, w2, w3⟩ := hw
  obtain ⟨b1, b2, b3, b4, b5, b6, b7, b8, b9, b10, b11⟩ := build_daily_newtork_same f m
  have hk := daily_pairs_length f m
  obtain ⟨hnd, -⟩ := write_log_nodup m.n_interactions (daily_pairs f m).length m.interaction_idx
    (by omega)
  have hadj : ∀ y, y < m.params.n_total →
      adjacency (build_daily_newtork f m) (build_daily_newtork f m).interaction_day_idx y
        = some (partners y (daily_pairs f m)).reverse := by
    intro y hy
    rw [b4]
    exact adjacency_build f m y hy hnd
  have hcons : Consistent (build_daily_newtork f m) := by
    intro d _
    obtain ⟨recs, infs, e1, e2, e3, e4⟩ := w3 d
    refine ⟨recs, infs, ?_, ?_, ?_, ?_⟩
    · unfold event_records_on
      rw [b7, b9, b10, ← e2]
      exact isEventList_records e1
    · rw [b8]; exact e3
    · unfold infected_on
      rw [b7, b9, b10, ← e2]
      exact isEventList_infected e1
    · exact fun y hy => ⟨_, hadj y (e4 y hy)⟩
  obtain ⟨cs, h1, h2⟩ := day_loop_eq (build_daily_newtork f m).time (build_daily_newtork f m)
    (Nat.le_refl _) (fun d hd => consistent_day_lists hcons d hd)
  refine ⟨cs, h1, ?_, hcons⟩
  intro x hx
  obtain ⟨d, recs, infs, cs1, -, hl, hx1⟩ := (h2 x).mp hx
  obtain ⟨y, a, hy, ha, hxa⟩ := (contacts_of_mem _ infs cs1 hl.2.2.2 x).mp hx1
  obtain ⟨recs', infs', e1, e2, -, e4⟩ := w3 d
  have e : some infs = some infs' := by
    rw [← dayLists_infected_on hl]
    unfold infected_on
    rw [b7, b9, b10, ← e2]
    exact isEventList_infected e1
  cases e
  rw [hadj y (e4 y hy)] at ha
  cases ha
  have hmem := mem_partners_daily f m hf y x (List.mem_reverse.mp hxa)
  obtain ⟨i, hi, hi2⟩ := (mem_template_copy m x).mp hmem
  rw [← hi2]
  exact w2 i hi

/-- One time step on a well-formed state under a shuffle that permutes the template has
a result, and the state after it is well formed. -/
theorem one_time_step_well_formed (f : List Nat → List Nat) (m : model) (hw : WellFormed m)
    (hf : (f (template_copy m)).Perm (template_copy m)) :
    ∃ r, one_time_step f m = some r ∧ WellFormed r.2 := by
  have hw1 : WellFormed { m with time := m.time + 1 } := hw
  obtain ⟨cs, h1, h2, -⟩ := transmit_after_build f { m with time := m.time + 1 } hw1 hf
  obtain ⟨b1, b2, b3, b4, b5, b6, b7, b8, b9, b10, b11⟩ :=
    build_daily_newtork_same f { m with time := m.time + 1 }
  have hfr := infect_all_frame cs (build_daily_newtork f { m with time := m.time + 1 })
  obtain ⟨a1, -, -, a4, -, -, a7, a8, -⟩ := hfr
  have hr : one_time_step f m
      = some (1, { infect_all cs (build_daily_newtork f { m with time := m.time + 1 }) with
          interaction_day_idx :=
            (ring_inc
              (infect_all cs (build_daily_newtork f
                { m with time := m.time + 1 })).interaction_day_idx
              (infect_all cs (build_daily_newtork f
                { m with time := m.time + 1 })).params.days_of_interactions) }) := by
    unfold one_time_step
    simp only []
    rw [h1]
    rfl
  refine ⟨_, hr, ?_⟩
  obtain ⟨w1, w2, w3⟩ := hw
  have hev : EventsOK (infect_all cs (build_daily_newtork f { m with time := m.time + 1 })) := by
    apply infect_all_events_ok
    · rw [b1]; exact h2
    · intro d
      obtain ⟨recs, infs, e1, e2, e3, e4⟩ := w3 d
      refine ⟨recs, infs, ?_, ?_, ?_, ?_⟩
      · rw [b7, b9]; exact e1
      · rw [b10]; exact e2
      · rw [b8]; exact e3
      · rw [b1]; exact e4
  refine ⟨?_, ?_, ?_⟩
  · show (infect_all cs _).n_possible_interactions ≤ (infect_all cs _).n_interactions + 1
    rw [a8, a4, b6, b3]; exact w1
  · intro i hi
    show (infect_all cs _).possible_interactions i < (infect_all cs _).params.n_total
    have hi' : i < m.n_possible_interactions := by
      have e : (infect_all cs (build_daily_newtork f
          { m with time := m.time + 1 })).n_possible_interactions
          = m.n_possible_interactions := a8.trans b6
      exact e ▸ hi
    rw [a7, a1, b5, b1]; exact w2 i hi'
  · exact hev

/-- A sequence of time steps from a well-formed state, every shuffle permuting the
template, has a result, which is well formed. -/
theorem run_well_formed : ∀ (fs : List (List Nat → List Nat)) (m : model), WellFormed m →
    (∀ f ∈ fs, (f (template_copy m)).Perm (template_copy m)) →
    ∃ m1, run fs m = some m1 ∧ WellFormed m1
  | [], m, hw, _ => ⟨m, rfl, hw⟩
  | f :: fs, m, hw, hfs => by
    obtain ⟨r, h1, h2⟩ := one_time_step_well_formed f m hw (hfs f (List.mem_cons_self _ _))
    obtain ⟨-, -, -, -, p1, p2, -⟩ := one_time_step_frame f m r h1
    have hc : template_copy r.2 = template_copy m := template_copy_congr p1 p2
    obtain ⟨m1, h3, h4⟩ := run_well_formed fs r.2 h2
      (fun g hg => by rw [hc]; exact hfs g (List.mem_cons_of_mem _ hg))
    exact ⟨m1, by simp only [run, h1, Option.some_bind, h3], h4⟩

/-- The postcondition of `transmit_virus` on a consistent state. -/
theorem transmit_virus_consistent (m : model) (hc : Consistent m) :
    ∃ (m1 : model) (cs : List Nat), transmit_virus m = some m1
      ∧ (∀ x, x ∈ cs ↔ Exposed m x)
      ∧ (∀ x, (m1.population x).status ≠ (m.population x).status
          ↔ ((m.population x).status = Status.UNINFECTED ∧ Exposed m x))
      ∧ (∀ x, (m1.population x).status ≠ (m.population x).status →
          (m1.population x).status = Status.PRESYMPTOMATIC)
      ∧ m1.n_infected = m.n_infected
          + ((cs.filter fun x =>
              decide ((m.population x).status = Status.UNINFECTED)).toFinset).card := by
  obtain ⟨cs, h1, h2⟩ := day_loop_eq m.time m (Nat.le_refl _) (fun d hd => consistent_day_lists hc d hd)
  have hmem : ∀ x, x ∈ cs ↔ Exposed m x := by
    intro x
    rw [h2, exposed_iff_day_lists m hc]
  refine ⟨infect_all cs m, cs, h1, hmem, ?_, ?_, infect_all_n_infected cs m⟩
  · intro x
    rw [infect_all_status, ← hmem]
    by_cases hx : x ∈ cs ∧ (m.population x).status = Status.UNINFECTED
    · rw [if_pos hx]
      constructor
      · exact fun _ => ⟨hx.2, hx.1⟩
      · intro _ h
        rw [hx.2] at h
        cases h
    · rw [if_neg hx]
      constructor
      · exact fun h => absurd rfl h
      · exact fun h => absurd ⟨h.2, h.1⟩ hx
  · intro x
    rw [infect_all_status]
    by_cases hx : x ∈ cs ∧ (m.population x).status = Status.UNINFECTED
    · rw [if_pos hx]; exact fun _ => rfl
    · rw [if_neg hx]; exact fun h => absurd rfl h

/-- The record indices a build takes: the log of its pairs from the cursor. -/
theorem build_daily_newtork_taken_log (f : List Nat → List Nat) (m : model) :
    (build_daily_newtork_taken f m).2
      = write_log m.n_interactions (daily_pairs f m).length m.interaction_idx := by
  rw [build_daily_newtork_taken_eq, pair_fold_taken]
  rfl

theorem daily_pairs_congr (f : List Nat → List Nat) {m m1 : model}
    (h1 : m1.possible_interactions = m.possible_interactions)
    (h2 : m1.n_possible_interactions = m.n_possible_interactions) :
    daily_pairs f m1 = daily_pairs f m := by
  unfold daily_pairs
  rw [template_copy_congr h1 h2, h2]

/-- C2, arena bounds, evaluated on the failing input: a population of two with one mean
interaction each and a window of one day gets an arena of `2` records; the first time
step takes the records `0` and `1` and leaves the cursor at `2`, which is not past the
capacity, so the build of the second step takes the records `2` and `3`. -/
theorem arena_write_past_capacity :
    ∃ m1, run [id] (new_model ⟨2, 1, 1, 10, 1⟩ (fun _ => 1) (fun _ => 0)) = some m1
      ∧ m1.n_interactions = 2
      ∧ (build_daily_newtork_taken id { m1 with time := m1.time + 1 }).2 = [2, 3] := by
  have hw : WellFormed (new_model ⟨2, 1, 1, 10, 1⟩ (fun _ => 1) (fun _ => 0)) :=
    new_model_well_formed _ _ _ (by decide) (by decide) (by decide)
  obtain ⟨r, h1, -⟩ := one_time_step_well_formed id _ hw (List.Perm.refl _)
  obtain ⟨a1, -, -⟩ := one_time_step_arena id _ r h1
  obtain ⟨-, -, -, -, p1, p2, p3, -⟩ := one_time_step_frame id _ r h1
  refine ⟨r.2, by simp only [run, h1, Option.some_bind], ?_, ?_⟩
  · rw [p3]; decide
  · rw [build_daily_newtork_taken_log]
    show write_log r.2.n_interactions (daily_pairs id r.2).length r.2.interaction_idx = [2, 3]
    rw [daily_pairs_congr id p1 p2, p3, a1]
    decide

theorem set_up_model_n_infected (n_mean person : Nat → Nat) (m : model) :
    (set_up_model n_mean person m).n_infected = m.params.n_seed_infection :=
  set_up_seed_infection_n_infected person _

/-- With one seed infection the infected-event list of the day of the set-up names the
seed and nobody else. -/
theorem infected_on_set_up_model_single (n_mean person : Nat → Nat) (m : model)
    (h1 : m.params.n_seed_infection = 1)
    (hdaily : ∀ d, m.params.end_time ≤ d → m.n_infected_daily d = 0) :
    infected_on (set_up_model n_mean person m) m.time = some [person 0] := by
  rw [set_up_model_eq, h1]
  simp only [seed_loop]
  unfold infected_on
  rw [new_infection_events, new_infection_infected, new_infection_n_infected_daily]
  have ht : ({ set_up_events (set_up_interactions (set_up_population n_mean m)) with
      n_infected := 0
      n_infected_daily := (zero_daily m.params.end_time m.n_infected_daily) } : model).time
      = m.time := rfl
  rw [ht, Function.update_same, Function.update_same]
  have hz : zero_daily m.params.end_time m.n_infected_daily m.time = 0 := by
    rw [zero_daily_apply]
    split
    · rfl
    · exact hdaily _ (by omega)
  show list_infected _ (zero_daily m.params.end_time m.n_infected_daily m.time + 1) (some 0)
    = _
  rw [hz]
  simp only [list_infected]
  rw [show ({ set_up_events (set_up_interactions (set_up_population n_mean m)) with
      n_infected := 0
      n_infected_daily := (zero_daily m.params.end_time m.n_infected_daily) } : model).event_idx
      = 0
    from rfl, Function.update_same]
  rfl

/-- The first step after the set-up calls with one seed infection: its build takes its
records inside the arena, and the cumulative count becomes one plus the number of
distinct uninfected individuals in the adjacency list of the seed. -/
theorem first_step_single_seed (n_mean person : Nat → Nat) (m : model)
    (f : List Nat → List Nat)
    (htime : m.time = 0)
    (hdaily : ∀ d, m.params.end_time ≤ d → m.n_infected_daily d = 0)
    (_hend : 1 < m.params.end_time)
    (h1 : m.params.n_seed_infection = 1)
    (hW : 1 ≤ m.params.days_of_interactions)
    (hfit : ∑ i in Finset.range m.params.n_total, n_mean i ≤ n_daily_interactions m.params)
    (hseed : person 0 < m.params.n_total)
    (hf : (f (template_copy (set_up_model n_mean person m))).Perm
      (template_copy (set_up_model n_mean person m))) :
    ∃ (r : Int × model) (adj : List Nat),
      one_time_step f (set_up_model n_mean person m) = some r
      ∧ (∀ i ∈ (build_daily_newtork_taken f { set_up_model n_mean person m with
            time := (set_up_model n_mean person m).time + 1 }).2,
          i < (set_up_model n_mean person m).n_interactions)
      ∧ adjacency
          (build_daily_newtork f { set_up_model n_mean person m with
            time := (set_up_model n_mean person m).time + 1 })
          (set_up_model n_mean person m).interaction_day_idx (person 0) = some adj
      ∧ r.2.n_infected = 1
          + ((adj.filter fun x => decide (((set_up_model n_mean person m).population x).status
              = Status.UNINFECTED)).toFinset).card := by
  have hw : WellFormed (set_up_model n_mean person m) :=
    set_up_model_well_formed n_mean person m hW hfit
      (fun i hi => by
        have : i = 0 := by omega
        rw [this]; exact hseed) hdaily
  obtain ⟨f1, f2, f3, f4, -, -, -⟩ := set_up_model_fields n_mean person m
  have hw1 : WellFormed { set_up_model n_mean person m with
      time := (set_up_model n_mean person m).time + 1 } := hw
  obtain ⟨-, -, -, hc⟩ := transmit_after_build f _ hw1 hf
  obtain ⟨m1, cs, t1, t2, -, -, t5⟩ := transmit_virus_consistent _ hc
  obtain ⟨b1, b2, b3, b4, b5, b6, b7, b8, b9, b10, b11⟩ := build_daily_newtork_same f
    { set_up_model n_mean person m with time := (set_up_model n_mean person m).time + 1 }
  have hk : 2 * (daily_pairs f { set_up_model n_mean person m with
      time := (set_up_model n_mean person m).time + 1 }).length
      ≤ (set_up_model n_mean person m).n_possible_interactions :=
    daily_pairs_length f _
  have hroom : (set_up_model n_mean person m).n_possible_interactions
      ≤ (set_up_model n_mean person m).n_interactions := by
    rw [set_up_model_n_possible, f3]
    calc ∑ i in Finset.range m.params.n_total, n_mean i
        ≤ n_daily_interactions m.params * 1 := by rw [Nat.mul_one]; exact hfit
      _ ≤ n_daily_interactions m.params * m.params.days_of_interactions :=
        Nat.mul_le_mul_left _ hW
  have hin := build_in_arena_of_room f { set_up_model n_mean person m with
      time := (set_up_model n_mean person m).time + 1 }
    (by show (set_up_model n_mean person m).interaction_idx + _
          ≤ (set_up_model n_mean person m).n_interactions
        rw [f4]; omega)
  obtain ⟨hnd, -⟩ := write_log_nodup (set_up_model n_mean person m).n_interactions
    (daily_pairs f { set_up_model n_mean person m with
      time := (set_up_model n_mean person m).time + 1 }).length
    (set_up_model n_mean person m).interaction_idx
    (by have := hw.1; omega)
  have hadj := adjacency_build f { set_up_model n_mean person m with
    time := (set_up_model n_mean person m).time + 1 } (person 0)
    (by show person 0 < (set_up_model n_mean person m).params.n_total
        rw [f1]; exact hseed) hnd
  have hinf : infected_on (build_daily_newtork f { set_up_model n_mean person m with
      time := (set_up_model n_mean person m).time + 1 }) 0 = some [person 0] := by
    unfold infected_on
    rw [b7, b9, b10]
    have := infected_on_set_up_model_single n_mean person m h1 hdaily
    rw [htime] at this
    exact this
  have hexp : ∀ x, x ∈ cs
      ↔ x ∈ (partners (person 0) (daily_pairs f { set_up_model n_mean person m with
          time := (set_up_model n_mean person m).time + 1 })).reverse := by
    intro x
    rw [t2]
    constructor
    · rintro ⟨d, infs, y, a, hd, hi, hy, ha, hx⟩
      have hd0 : d = 0 := by
        rw [b2] at hd
        have : d < (set_up_model n_mean person m).time + 1 := hd
        rw [f2, htime] at this
        omega
      subst hd0
      rw [hinf] at hi
      cases hi
      rw [List.mem_singleton] at hy
      subst hy
      rw [b4] at ha
      rw [hadj] at ha
      cases ha
      exact hx
    · intro hx
      refine ⟨0, [person 0], person 0, _, ?_, hinf, List.mem_singleton.mpr rfl, ?_, hx⟩
      · rw [b2]
        exact Nat.succ_pos _
      · rw [b4]; exact hadj
  refine ⟨(1, { m1 with interaction_day_idx :=
      (ring_inc m1.interaction_day_idx m1.params.days_of_interactions) }), _, ?_, hin, hadj,
    ?_⟩
  · unfold one_time_step
    simp only []
    rw [t1]
    rfl
  · show m1.n_infected = _
    rw [t5, b11]
    have hn : (set_up_model n_mean person m).n_infected = 1 := by
      rw [set_up_model_n_infected, h1]
    show (set_up_model n_mean person m).n_infected + _ = _
    rw [hn]
    congr 2
    ext x
    simp only [List.mem_toFinset, List.mem_filter, decide_eq_true_eq, hexp,
      build_daily_newtork_status]

/-- C4, propagation postcondition.  On a consistent state `transmit_virus` has a result;
the status of an individual changes exactly when it was uninfected and is in the
adjacency list of the current day-slot of an individual recorded in the infected-event
list of an earlier day; a status that changes becomes presymptomatic; and the cumulative
infection count grows by the number of distinct such individuals, `cs` being the sequence
of all contacts of the recorded individuals.  So when the set-up calls of `new_model`
have run on a model structure at time `0` with one seed infection and an `end_time` past
the first day, the first time step, whose build takes its records inside the arena,
makes the count one plus the number of distinct uninfected individuals in the adjacency
list of the seed. -/
theorem propagation_postcondition :
    (∀ m : model, Consistent m →
      ∃ (m1 : model) (cs : List Nat), transmit_virus m = some m1
        ∧ (∀ x, x ∈ cs ↔ Exposed m x)
        ∧ (∀ x, (m1.population x).status ≠ (m.population x).status
            ↔ ((m.population x).status = Status.UNINFECTED ∧ Exposed m x))
        ∧ (∀ x, (m1.population x).status ≠ (m.population x).status →
            (m1.population x).status = Status.PRESYMPTOMATIC)
        ∧ m1.n_infected = m.n_infected
            + ((cs.filter fun x =>
                decide ((m.population x).status = Status.UNINFECTED)).toFinset).card)
    ∧ (∀ (n_mean person : Nat → Nat) (m : model) (f : List Nat → List Nat),
        m.time = 0 → (∀ d, m.params.end_time ≤ d → m.n_infected_daily d = 0) →
        1 < m.params.end_time →
        m.params.n_seed_infection = 1 → 1 ≤ m.params.days_of_interactions →
        ∑ i in Finset.range m.params.n_total, n_mean i ≤ n_daily_interactions m.params →
        person 0 < m.params.n_total →
        (f (template_copy (set_up_model n_mean person m))).Perm
          (template_copy (set_up_model n_mean person m)) →
        ∃ (r : Int × model) (adj : List Nat),
          one_time_step f (set_up_model n_mean person m) = some r
          ∧ (∀ i ∈ (build_daily_newtork_taken f { set_up_model n_mean person m with
                time := (set_up_model n_mean person m).time + 1 }).2,
              i < (set_up_model n_mean person m).n_interactions)
          ∧ adjacency
              (build_daily_newtork f { set_up_model n_mean person m with
                time := (set_up_model n_mean person m).time + 1 })
              (set_up_model n_mean person m).interaction_day_idx (person 0) = some adj
          ∧ r.2.n_infected = 1
              + ((adj.filter fun x =>
                  decide (((set_up_model n_mean person m).population x).status
                    = Status.UNINFECTED)).toFinset).card) :=
  ⟨transmit_virus_consistent, first_step_single_seed⟩

/-! ## The statements at the example states -/

theorem example_model_well_formed : WellFormed example_model :=
  new_model_well_formed _ _ _ (by decide) (by decide) (by decide)

theorem example_shuffles_perm (fs : List (List Nat → List Nat))
    (h : ∀ f ∈ fs, f = id ∨ f = List.reverse) (m : model) :
    ∀ f ∈ fs, (f (template_copy m)).Perm (template_copy m) := by
  intro f hf
  rcases h f hf with e | e
  · rw [e]; exact List.Perm.refl _
  · rw [e]; exact List.reverse_perm _

theorem template_construction_witness :
    (∀ i, i < (set_up_population (fun _ => 1) (calloc_model ⟨2, 1, 2, 10, 1⟩)).params.n_total →
        ((set_up_population (fun _ => 1) (calloc_model ⟨2, 1, 2, 10, 1⟩)).population
            i).n_mean_interactions
          = (set_up_population (fun _ => 1)
              (calloc_model ⟨2, 1, 2, 10, 1⟩)).params.mean_daily_interactions)
    ∧ (set_up_interactions (set_up_population (fun _ => 1)
          (calloc_model ⟨2, 1, 2, 10, 1⟩))).n_possible_interactions
        = n_daily_interactions
            (set_up_population (fun _ => 1) (calloc_model ⟨2, 1, 2, 10, 1⟩)).params := by
  have h : ∀ i, i < (set_up_population (fun _ => 1)
        (calloc_model ⟨2, 1, 2, 10, 1⟩)).params.n_total →
      ((set_up_population (fun _ => 1) (calloc_model ⟨2, 1, 2, 10, 1⟩)).population
          i).n_mean_interactions
        = (set_up_population (fun _ => 1)
            (calloc_model ⟨2, 1, 2, 10, 1⟩)).params.mean_daily_interactions :=
    fun i hi => set_up_population_n_mean _ _ i hi
  exact ⟨h, (template_construction
    (set_up_population (fun _ => 1) (calloc_model ⟨2, 1, 2, 10, 1⟩))).2.2.2.2 h⟩

theorem seed_infection_status_witness :
    ((0 : Nat) < example_unseeded.params.n_total
      ∧ ∀ y, y < example_unseeded.params.n_total →
          (example_unseeded.population y).status = Status.UNINFECTED)
    ∧ (((set_up_seed_infection (fun _ => 0) example_unseeded).population 0).status
          = Status.PRESYMPTOMATIC
        ↔ ∃ i, i < example_unseeded.params.n_seed_infection ∧ (fun _ => 0) i = 0)
    ∧ ((¬ ∃ i, i < example_unseeded.params.n_seed_infection ∧ (fun _ => 0) i = 0) →
        ((set_up_seed_infection (fun _ => 0) example_unseeded).population 0).status
          = Status.UNINFECTED) := by
  have h : ∀ y, y < example_unseeded.params.n_total →
      (example_unseeded.population y).status = Status.UNINFECTED := by
    intro y _
    show ((set_up_population_loop (fun _ => 1) 2 fun _ => initialize_individual 0) y).status = _
    rw [set_up_population_loop_apply]
    split <;> rfl
  exact ⟨⟨by decide, h⟩, seed_infection_status (fun _ => 0) example_unseeded 0 (by decide) h⟩

theorem example_block_daily :
    ∀ d, example_block.params.end_time ≤ d → example_block.n_infected_daily d = 0 := by
  intro d hd
  have h : ¬ d < 10 := Nat.not_lt.mpr hd
  show (if d < 10 then 4 else 0) = 0
  rw [if_neg h]

theorem example_state_well_formed : WellFormed example_state :=
  set_up_model_well_formed _ _ example_block (by decide) (by decide) (by decide)
    example_block_daily

theorem example_state_in_arena (f g : List Nat → List Nat) :
    in_arena [f, g] example_state :=
  in_arena_of_room [f, g] example_state
    (by show example_state.interaction_idx + 2 * example_state.n_possible_interactions
          ≤ example_state.n_interactions
        decide)

theorem infection_count_monotone_witness :
    ∃ m1, run [List.reverse, id] example_model = some m1
      ∧ example_model.n_infected ≤ m1.n_infected
      ∧ ∀ x, (example_model.population x).status ≠ Status.UNINFECTED →
          (m1.population x).status ≠ Status.UNINFECTED := by
  obtain ⟨m1, h1, -⟩ := run_well_formed [List.reverse, id] example_model
    example_model_well_formed (example_shuffles_perm _ (by simp) _)
  exact ⟨m1, h1, infection_count_monotone.2 [List.reverse, id] example_model m1 h1⟩

theorem propagation_postcondition_witness :
    (Consistent (build_daily_newtork id { example_state with time := example_state.time + 1 })
    ∧ ∃ (m1 : model) (cs : List Nat),
        transmit_virus
          (build_daily_newtork id { example_state with time := example_state.time + 1 })
          = some m1
        ∧ (∀ x, x ∈ cs ↔ Exposed
            (build_daily_newtork id { example_state with time := example_state.time + 1 }) x)
        ∧ (∀ x, (m1.population x).status
              ≠ ((build_daily_newtork id
                  { example_state with time := example_state.time + 1 }).population x).status
            ↔ (((build_daily_newtork id
                  { example_state with time := example_state.time + 1 }).population x).status
                = Status.UNINFECTED
              ∧ Exposed (build_daily_newtork id
                  { example_state with time := example_state.time + 1 }) x))
        ∧ (∀ x, (m1.population x).status
              ≠ ((build_daily_newtork id
                  { example_state with time := example_state.time + 1 }).population x).status →
            (m1.population x).status = Status.PRESYMPTOMATIC)
        ∧ m1.n_infected
            = (build_daily_newtork id
                { example_state with time := example_state.time + 1 }).n_infected
              + ((cs.filter fun x => decide (((build_daily_newtork id
                  { example_state with time := example_state.time + 1 }).population x).status
                    = Status.UNINFECTED)).toFinset).card)
    ∧ (example_block.time = 0
      ∧ (∀ d, example_block.params.end_time ≤ d → example_block.n_infected_daily d = 0)
      ∧ 1 < example_block.params.end_time
      ∧ example_block.params.n_seed_infection = 1
      ∧ 1 ≤ example_block.params.days_of_interactions
      ∧ ∑ i in Finset.range example_block.params.n_total, (fun _ => 1) i
          ≤ n_daily_interactions example_block.params
      ∧ (fun _ => 0) 0 < example_block.params.n_total
      ∧ (id (template_copy (set_up_model (fun _ => 1) (fun _ => 0) example_block))).Perm
          (template_copy (set_up_model (fun _ => 1) (fun _ => 0) example_block)))
    ∧ ∃ (r : Int × model) (adj : List Nat),
        one_time_step id (set_up_model (fun _ => 1) (fun _ => 0) example_block) = some r
        ∧ (∀ i ∈ (build_daily_newtork_taken id
              { set_up_model (fun _ => 1) (fun _ => 0) example_block with
                time := (set_up_model (fun _ => 1) (fun _ => 0) example_block).time + 1 }).2,
            i < (set_up_model (fun _ => 1) (fun _ => 0) example_block).n_interactions)
        ∧ adjacency
            (build_daily_newtork id
              { set_up_model (fun _ => 1) (fun _ => 0) example_block with
                time := (set_up_model (fun _ => 1) (fun _ => 0) example_block).time + 1 })
            (set_up_model (fun _ => 1) (fun _ => 0) example_block).interaction_day_idx
            ((fun _ => 0) 0) = some adj
        ∧ r.2.n_infected = 1
            + ((adj.filter fun x =>
                decide (((set_up_model (fun _ => 1) (fun _ => 0) example_block).population
                  x).status = Status.UNINFECTED)).toFinset).card := by
  have hw : WellFormed { example_state with time := example_state.time + 1 } :=
    example_state_well_formed
  obtain ⟨-, -, -, hc⟩ := transmit_after_build id _ hw (List.Perm.refl _)
  exact ⟨⟨hc, propagation_postcondition.1 _ hc⟩,
    ⟨rfl, example_block_daily, by decide, rfl, by decide, by decide, by decide,
      List.Perm.refl _⟩,
    propagation_postcondition.2 (fun _ => 1) (fun _ => 0) example_block id rfl
      example_block_daily (by decide) rfl (by decide) (by decide) (by decide)
      (List.Perm.refl _)⟩

/-- The pairing loop takes its records for the pairs of the scan, in their order. -/
theorem pair_loop_eq_scan (day : Nat) (s : List Nat) (n_pos : Int) :
    ∀ (k idx : Nat) (m : model) (taken : List Nat), (n_pos - idx).toNat ≤ k →
      pair_loop day s n_pos idx m taken = pair_fold day (scan_pairs s n_pos idx) m taken := by
  intro k
  induction k with
  | zero =>
    intro idx m taken hk
    have hc : ¬ ((idx : Int) < n_pos) := by omega
    rw [pair_loop, if_neg hc, scan_pairs, if_neg hc]
    rfl
  | succ k ih =>
    intro idx m taken hk
    by_cases hc : (idx : Int) < n_pos
    · rw [pair_loop, if_pos hc, scan_pairs, if_pos hc]
      by_cases he : s.getD idx 0 = s.getD (idx + 1) 0
      · rw [if_pos he, if_pos he]
        exact ih (idx + 1) m taken (by push_cast; omega)
      · rw [if_neg he, if_neg he, ih (idx + 2) _ _ (by push_cast; omega)]
        rfl
    · rw [pair_loop, if_neg hc, scan_pairs, if_neg hc]
      rfl

/-- The scan of the first `n` entries makes the pairs of the reference definition. -/
theorem scan_pairs_eq_pairs (s : List Nat) (n : Nat) :
    ∀ (k idx : Nat), n - idx ≤ k →
      scan_pairs s ((n : Int) - 1) idx = pairs ((scanned s n).drop idx) := by
  intro k
  induction k with
  | zero =>
    intro idx hk
    have hc : ¬ ((idx : Int) < (n : Int) - 1) := by omega
    rw [scan_pairs, if_neg hc, pairs_short]
    simp [scanned_length]; omega
  | succ k ih =>
    intro idx hk
    by_cases h : idx + 1 < n
    · have hc : (idx : Int) < (n : Int) - 1 := by omega
      have h0 : idx < (scanned s n).length := by rw [scanned_length]; omega
      have h1 : idx + 1 < (scanned s n).length := by rw [scanned_length]; omega
      have hd : (scanned s n).drop idx
          = s.getD idx 0 :: s.getD (idx + 1) 0 :: (scanned s n).drop (idx + 2) := by
        rw [List.drop_eq_getElem_cons h0, List.drop_eq_getElem_cons h1, scanned_getElem,
          scanned_getElem]
      have hd1 : (scanned s n).drop (idx + 1)
          = s.getD (idx + 1) 0 :: (scanned s n).drop (idx + 2) := by
        rw [List.drop_eq_getElem_cons h1, scanned_getElem]
      rw [scan_pairs, if_pos hc, hd]
      by_cases he : s.getD idx 0 = s.getD (idx + 1) 0
      · rw [if_pos he, ih (idx + 1) (by omega), hd1]
        simp only [pairs, he, if_true]
      · rw [if_neg he, ih (idx + 2) (by omega)]
        simp only [pairs, he, if_false]
    · have hc : ¬ ((idx : Int) < (n : Int) - 1) := by omega
      rw [scan_pairs, if_neg hc, pairs_short]
      simp [scanned_length]; omega

theorem scan_pairs_whole (s : List Nat) :
    scan_pairs s ((s.length : Int) - 1) 0 = pairs s := by
  rw [scan_pairs_eq_pairs s s.length s.length 0 (by omega), scanned_of_length]
  rfl

theorem build_daily_newtork_taken_scan (f : List Nat → List Nat) (m : model) :
    build_daily_newtork_taken f m
      = pair_fold m.interaction_day_idx
          (scan_pairs (f (template_copy m)) ((m.n_possible_interactions : Int) - 1) 0)
          { m with population :=
              (reset_counts m.interaction_day_idx m.params.n_total m.population) } [] := by
  simp only [build_daily_newtork_taken]
  rw [pair_loop_eq_scan _ _ _ _ 0 _ _ (Nat.le_refl _)]
  rfl

/-- C15, the pairing scan equals its reference definition.  For every array `s` the pairs
for which the loop of `build_daily_newtork` takes interaction records, scanned up to the
last entry, are `pairs s`; the build is the loop body folded over the pairs of the scan of
the shuffled copy, which are `pairs` of that copy when the shuffle keeps the length; and
`pairs` is empty on fewer than two entries, so a last single entry is dropped and the
scan of the empty array ends at once, it drops one entry of two equal neighbours, and it
pairs two different neighbours. -/
theorem pairing_scan_refinement :
    (∀ s : List Nat, scan_pairs s ((s.length : Int) - 1) 0 = pairs s)
    ∧ (∀ (f : List Nat → List Nat) (m : model),
        build_daily_newtork_taken f m
          = pair_fold m.interaction_day_idx
              (scan_pairs (f (template_copy m)) ((m.n_possible_interactions : Int) - 1) 0)
              { m with population :=
                  (reset_counts m.interaction_day_idx m.params.n_total m.population) } [])
    ∧ (∀ (f : List Nat → List Nat) (m : model),
        (f (template_copy m)).length = m.n_possible_interactions →
        scan_pairs (f (template_copy m)) ((m.n_possible_interactions : Int) - 1) 0
          = pairs (f (template_copy m)))
    ∧ pairs [] = [] ∧ (∀ a, pairs [a] = [])
    ∧ (∀ a b rest, a = b → pairs (a :: b :: rest) = pairs (b :: rest))
    ∧ (∀ a b rest, a ≠ b → pairs (a :: b :: rest) = (a, b) :: pairs rest)
    ∧ scan_pairs [] (((([] : List Nat).length : Nat) : Int) - 1) 0 = [] := by
  refine ⟨scan_pairs_whole, build_daily_newtork_taken_scan, ?_, rfl, fun _ => rfl, ?_, ?_,
    scan_pairs_whole []⟩
  · intro f m hl
    rw [← hl]
    exact scan_pairs_whole _
  · intro a b rest h
    simp only [pairs, h, if_true]
  · intro a b rest h
    simp only [pairs, h, if_false]

theorem pairing_scan_refinement_witness :
    (id (template_copy example_model)).length = example_model.n_possible_interactions
    ∧ scan_pairs (id (template_copy example_model))
        ((example_model.n_possible_interactions : Int) - 1) 0
      = pairs (id (template_copy example_model)) :=
  ⟨by decide, pairing_scan_refinement.2.2.1 id example_model (by decide)⟩

/-! ## Counts of records and of interactions -/

theorem write_log_length (N : Nat) : ∀ (k c : Nat), (write_log N k c).length = 2 * k
  | 0, _ => rfl
  | k + 1, c => by
    simp only [write_log, List.length_cons, write_log_length N k]
    omega

theorem scan_pairs_eq_daily_pairs (f : List Nat → List Nat) (m : model) :
    scan_pairs (f (template_copy m)) ((m.n_possible_interactions : Int) - 1) 0
      = daily_pairs f m := by
  rw [scan_pairs_eq_pairs _ _ m.n_possible_interactions 0 (by omega)]
  rfl

theorem daily_pairs_of_perm (f : List Nat → List Nat) (m : model)
    (hf : (f (template_copy m)).Perm (template_copy m)) :
    daily_pairs f m = pairs (f (template_copy m)) := by
  have hl : (f (template_copy m)).length = m.n_possible_interactions := by
    rw [hf.length_eq, length_template_copy]
  unfold daily_pairs
  rw [← hl, scanned_of_length]

/-- The count of the current day-slot after the pairing loop: one more for every pair
the individual is in. -/
theorem pair_fold_count (day : Nat) : ∀ (ps : List (Nat × Nat)) (m : model) (taken : List Nat)
    (x : Nat), (∀ p ∈ ps, p.1 ≠ p.2) →
    ((pair_fold day ps m taken).1.population x).n_interactions day
      = (m.population x).n_interactions day + (partners x ps).length
  | [], m, _, x, _ => by simp [pair_fold, partners]
  | (a, b) :: ps, m, taken, x, hne => by
    have hp : a ≠ b := hne (a, b) (List.mem_cons_self _ _)
    have ih := pair_fold_count day ps (pair_body day a b m)
      (taken ++ [m.interaction_idx, m.interaction_idx + 1]) x
      (fun q hq => hne q (List.mem_cons_of_mem _ hq))
    simp only [pair_fold]
    rw [ih]
    by_cases h1 : a = x
    · subst h1
      rw [pair_body_count_fst day a b m hp day, if_pos rfl]
      simp [partners]
      omega
    · by_cases h2 : b = x
      · subst h2
        rw [pair_body_count_snd day a b m hp day, if_pos rfl]
        simp [partners, h1]
        omega
      · rw [pair_body_population_ne _ _ _ _ _ (Ne.symm h1) (Ne.symm h2)]
        simp [partners, h1, h2]

/-- The count of an individual of the population after a build is the number of pairs of
the day it is in, whatever the count was before. -/
theorem build_daily_newtork_count (f : List Nat → List Nat) (m : model) (x : Nat)
    (hx : x < m.params.n_total) :
    ((build_daily_newtork f m).population x).n_interactions m.interaction_day_idx
      = (partners x (daily_pairs f m)).length := by
  unfold build_daily_newtork
  rw [build_daily_newtork_taken_eq, pair_fold_count _ _ _ _ _ (daily_pairs_ne f m)]
  show ((reset_counts m.interaction_day_idx m.params.n_total m.population) x).n_interactions
    m.interaction_day_idx + _ = _
  rw [reset_counts_apply, if_pos hx]
  simp

theorem partners_length_le_count (x : Nat) : ∀ (l : List Nat),
    (partners x (pairs l)).length ≤ l.count x
  | [] => by simp [pairs, partners]
  | [_] => by simp [pairs, partners]
  | a :: b :: rest => by
    by_cases he : a = b
    · have ih := partners_length_le_count x (b :: rest)
      simp only [pairs, he, if_true]
      rw [List.count_cons]
      omega
    · have ih := partners_length_le_count x rest
      simp only [pairs, he, if_false, partners, List.count_cons]
      by_cases h1 : a = x
      · subst h1
        simp only [if_true, List.length_cons, beq_self_eq_true]
        omega
      · by_cases h2 : b = x
        · subst h2
          simp only [h1, if_false, if_true, List.length_cons, beq_self_eq_true]
          omega
        · simp only [h1, h2, if_false]
          omega

theorem sum_indicator (n a : Nat) (ha : a < n) :
    ∑ x in Finset.range n, (if a = x then 1 else 0) = 1 := by
  rw [Finset.sum_ite_eq (Finset.range n) a (fun _ => 1), if_pos (Finset.mem_range.mpr ha)]

theorem partners_length_cons (x : Nat) (p : Nat × Nat) (ps : List (Nat × Nat))
    (hp : p.1 ≠ p.2) :
    (partners x (p :: ps)).length
      = (if p.1 = x then 1 else 0) + (if p.2 = x then 1 else 0) + (partners x ps).length := by
  simp only [partners]
  by_cases h1 : p.1 = x
  · have h2 : ¬ p.2 = x := fun h => hp (h1.trans h.symm)
    simp [h1, h2]; omega
  · by_cases h2 : p.2 = x
    · simp [h1, h2]; omega
    · simp [h1, h2]

/-- Over the individuals of the population the numbers of partners add up to two for
every pair. -/
theorem sum_partners_length (n : Nat) : ∀ (ps : List (Nat × Nat)),
    (∀ p ∈ ps, p.1 ≠ p.2 ∧ p.1 < n ∧ p.2 < n) →
    ∑ x in Finset.range n, (partners x ps).length = 2 * ps.length
  | [], _ => by simp [partners]
  | p :: ps, h => by
    obtain ⟨h1, h2, h3⟩ := h p (List.mem_cons_self _ _)
    have ih := sum_partners_length n ps (fun q hq => h q (List.mem_cons_of_mem _ hq))
    rw [Finset.sum_congr rfl (fun x _ => partners_length_cons x p ps h1),
      Finset.sum_add_distrib, Finset.sum_add_distrib, sum_indicator n p.1 h2,
      sum_indicator n p.2 h3, ih, List.length_cons]
    omega

theorem pairs_length_of_no_self_pairs : ∀ (l : List Nat), self_pairs l = 0 →
    (pairs l).length = l.length / 2
  | [], _ => by simp [pairs]
  | [_], _ => by simp [pairs]
  | a :: b :: rest, h => by
    by_cases he : a = b
    · simp [self_pairs, he] at h
    · simp only [self_pairs, he, if_false] at h
      simp only [pairs, he, if_false, List.length_cons,
        pairs_length_of_no_self_pairs rest h]
      omega

theorem set_up_model_population_n_mean (n_mean person : Nat → Nat) (m : model)
    (i : Nat) (hi : i < m.params.n_total) :
    ((set_up_model n_mean person m).population i).n_mean_interactions = n_mean i := by
  rw [set_up_model_eq]
  rw [((seed_loop_frame person _ m.params.n_seed_infection).2.2.2.2.2.2.2.2.2.2.2.2 i).2.2.1]
  exact set_up_population_n_mean n_mean m i hi

theorem template_copy_set_up_model (n_mean person : Nat → Nat) (m : model) :
    template_copy (set_up_model n_mean person m)
      = ((List.range m.params.n_total).map fun i => List.replicate (n_mean i) i).flatten := by
  obtain ⟨-, -, -, -, -, f6, f7⟩ := set_up_model_fields n_mean person m
  rw [template_copy_congr f6 f7, template_copy_set_up_interactions]
  show ((List.range m.params.n_total).map _).flatten = _
  congr 1
  apply List.map_congr_left
  intro i hi
  rw [set_up_population_n_mean n_mean m i (List.mem_range.mp hi)]

/-! ## Statements about one build and about the bookkeeping -/

/-- C12, infection bookkeeping postcondition: `new_infection` makes the individual
presymptomatic, takes the event record at `event_idx` and advances the cursor by one,
makes that record, which names the individual and links to the previous head, the head
of the infected-event list of the current day, adds one to the counter of the day and to
the cumulative counter, and leaves every other individual, the other fields of the
individual, every other event record, the heads and counters of the other days, the time,
the parameters and the interaction state as they are. -/
theorem new_infection_postcondition (m : model) (x : Nat) :
    ((new_infection m x).population x).status = Status.PRESYMPTOMATIC
    ∧ (new_event m).1 = m.event_idx
    ∧ (new_infection m x).event_idx = m.event_idx + 1
    ∧ (new_infection m x).events m.event_idx
        = { individual := some x, next := m.infected m.time }
    ∧ (new_infection m x).infected m.time = some m.event_idx
    ∧ (new_infection m x).n_infected_daily m.time = m.n_infected_daily m.time + 1
    ∧ (new_infection m x).n_infected = m.n_infected + 1
    ∧ (∀ y, y ≠ x → (new_infection m x).population y = m.population y)
    ∧ ((new_infection m x).population x).n_mean_interactions
        = (m.population x).n_mean_interactions
    ∧ ((new_infection m x).population x).n_interactions = (m.population x).n_interactions
    ∧ ((new_infection m x).population x).interactions = (m.population x).interactions
    ∧ (∀ e, e ≠ m.event_idx → (new_infection m x).events e = m.events e)
    ∧ (∀ d, d ≠ m.time → (new_infection m x).infected d = m.infected d
        ∧ (new_infection m x).n_infected_daily d = m.n_infected_daily d)
    ∧ (new_infection m x).time = m.time
    ∧ (new_infection m x).params = m.params
    ∧ (new_infection m x).interactions = m.interactions
    ∧ (new_infection m x).n_interactions = m.n_interactions
    ∧ (new_infection m x).interaction_idx = m.interaction_idx
    ∧ (new_infection m x).interaction_day_idx = m.interaction_day_idx
    ∧ (new_infection m x).possible_interactions = m.possible_interactions
    ∧ (new_infection m x).n_possible_interactions = m.n_possible_interactions := by
  refine ⟨?_, rfl, rfl, ?_, ?_, ?_, rfl, ?_, new_infection_n_mean_interactions m x x,
    new_infection_n_interactions_of m x x, new_infection_interactions_of m x x, ?_, ?_,
    rfl, rfl, rfl, rfl, rfl, rfl, rfl, rfl⟩
  · rw [new_infection_status, if_pos rfl]
  · rw [new_infection_events, Function.update_same]
  · rw [new_infection_infected, Function.update_same]
  · rw [new_infection_n_infected_daily, Function.update_same]
  · intro y hy
    rw [new_infection_population, Function.update_noteq hy]
  · intro e he
    rw [new_infection_events, Function.update_noteq he]
  · intro d hd
    rw [new_infection_infected, new_infection_n_infected_daily, Function.update_noteq hd,
      Function.update_noteq hd]
    exact ⟨rfl, rfl⟩

theorem daily_pairs_mem_of_perm (f : List Nat → List Nat) (m : model)
    (hf : (f (template_copy m)).Perm (template_copy m)) (p : Nat × Nat)
    (hp : p ∈ daily_pairs f m) : p.1 ∈ template_copy m ∧ p.2 ∈ template_copy m := by
  rw [daily_pairs_of_perm f m hf] at hp
  have := pairs_mem _ p hp
  exact ⟨hf.mem_iff.mp this.1, hf.mem_iff.mp this.2⟩

/-- The counts of the current day-slot after a build add up to the number of records the
build has taken, when the shuffled template names individuals of the population. -/
theorem build_daily_newtork_sum_counts (f : List Nat → List Nat) (m : model)
    (hf : (f (template_copy m)).Perm (template_copy m))
    (ht : ∀ i ∈ template_copy m, i < m.params.n_total) :
    (build_daily_newtork_taken f m).2.length
      = ∑ x in Finset.range m.params.n_total,
          ((build_daily_newtork f m).population x).n_interactions m.interaction_day_idx := by
  rw [build_daily_newtork_taken_log, write_log_length,
    Finset.sum_congr rfl (fun x hx =>
      build_daily_newtork_count f m x (Finset.mem_range.mp hx)),
    sum_partners_length]
  intro p hp
  have := daily_pairs_mem_of_perm f m hf p hp
  exact ⟨daily_pairs_ne f m p hp, ht _ this.1, ht _ this.2⟩

/-- C13, record-count parity: the number of interaction records one build takes from the
arena is even and at most `n_possible_interactions`; and when the shuffle permutes the
template and the template names individuals of the population, it is the sum over the
individuals of the counts of the current day-slot after the build. -/
theorem record_count_parity :
    (∀ (f : List Nat → List Nat) (m : model),
        Even (build_daily_newtork_taken f m).2.length
        ∧ (build_daily_newtork_taken f m).2.length ≤ m.n_possible_interactions)
    ∧ (∀ (f : List Nat → List Nat) (m : model),
        (f (template_copy m)).Perm (template_copy m) →
        (∀ i ∈ template_copy m, i < m.params.n_total) →
        (build_daily_newtork_taken f m).2.length
          = ∑ x in Finset.range m.params.n_total,
              ((build_daily_newtork f m).population x).n_interactions
                m.interaction_day_idx) := by
  refine ⟨fun f m => ?_, build_daily_newtork_sum_counts⟩
  rw [build_daily_newtork_taken_log, write_log_length]
  exact ⟨⟨(daily_pairs f m).length, by omega⟩, daily_pairs_length f m⟩

/-- C16, realized degree bound: after a build the count of the current day-slot of an
individual of the population is the number of pairs of the day it is in, whatever the
count left in the slot before; under a shuffle that permutes the template it is at most
the number of template slots the individual occupies; and in a state reached from the
set-up calls on a model structure (window of at least one day, template within its slots,
at most `n_total` seeds, drawn from the population) by fewer than `end_time` time steps
whose shuffles permute the template and whose builds take their records inside the
arena, that number is the `n_mean_interactions` of the individual. -/
theorem realized_degree_bound :
    (∀ (f : List Nat → List Nat) (m : model) (i : Nat), i < m.params.n_total →
        ((build_daily_newtork f m).population i).n_interactions m.interaction_day_idx
          = (partners i (daily_pairs f m)).length)
    ∧ (∀ (f : List Nat → List Nat) (m : model) (i : Nat), i < m.params.n_total →
        (f (template_copy m)).Perm (template_copy m) →
        ((build_daily_newtork f m).population i).n_interactions m.interaction_day_idx
          ≤ (template_copy m).count i)
    ∧ (∀ (n_mean person : Nat → Nat) (m : model)
        (fs : List (List Nat → List Nat)) (m1 : model) (f : List Nat → List Nat) (i : Nat),
        1 ≤ m.params.days_of_interactions →
        ∑ j in Finset.range m.params.n_total, n_mean j ≤ n_daily_interactions m.params →
        (∀ j, j < m.params.n_seed_infection → person j < m.params.n_total) →
        m.params.n_seed_infection ≤ m.params.n_total →
        fs.length < m.params.end_time →
        (∀ g ∈ fs, (g (template_copy (set_up_model n_mean person m))).Perm
          (template_copy (set_up_model n_mean person m))) →
        in_arena fs (set_up_model n_mean person m) →
        run fs (set_up_model n_mean person m) = some m1 → i < m.params.n_total →
        (f (template_copy m1)).Perm (template_copy m1) →
        (template_copy m1).count i = (m1.population i).n_mean_interactions
        ∧ (m1.population i).n_mean_interactions = n_mean i
        ∧ ((build_daily_newtork f m1).population i).n_interactions m1.interaction_day_idx
            ≤ (m1.population i).n_mean_interactions) := by
  have h2 : ∀ (f : List Nat → List Nat) (m : model) (i : Nat), i < m.params.n_total →
      (f (template_copy m)).Perm (template_copy m) →
      ((build_daily_newtork f m).population i).n_interactions m.interaction_day_idx
        ≤ (template_copy m).count i := by
    intro f m i hi hf
    rw [build_daily_newtork_count f m i hi, daily_pairs_of_perm f m hf, ← hf.count_eq]
    exact partners_length_le_count i _
  refine ⟨build_daily_newtork_count, h2, ?_⟩
  intro n_mean person m fs m1 f i _ _ _ _ _ _ _ hrun hi hf
  obtain ⟨q1, -, q3, q4, -, -, q7, -⟩ := run_frame fs _ m1 hrun
  obtain ⟨f1, -⟩ := set_up_model_fields n_mean person m
  have hn : (m1.population i).n_mean_interactions = n_mean i := by
    rw [q7, set_up_model_population_n_mean n_mean person m i hi]
  have hc : (template_copy m1).count i = (m1.population i).n_mean_interactions := by
    rw [template_copy_congr q3 q4, template_copy_set_up_model, blocks_count, if_pos hi, hn]
  refine ⟨hc, hn, ?_⟩
  rw [← hc]
  exact h2 f m1 i (by rw [q1, f1]; exact hi) hf

/-- C18, no self-contact: the two individuals of every pair the loop links are different;
for such a pair the loop body writes the second individual into the record it prepends to
the list of the first and the first into the record it prepends to the list of the
second; and when the build takes no record twice, the adjacency list of the current
day-slot of an individual of the population does not contain the individual itself. -/
theorem no_self_contact :
    (∀ (f : List Nat → List Nat) (m : model) (p : Nat × Nat),
        p ∈ scan_pairs (f (template_copy m)) ((m.n_possible_interactions : Int) - 1) 0 →
        p.1 ≠ p.2)
    ∧ (∀ (day a b : Nat) (m : model), a ≠ b →
        ((pair_body day a b m).population a).interactions day = some m.interaction_idx
        ∧ ((pair_body day a b m).interactions m.interaction_idx).individual = some b
        ∧ ((pair_body day a b m).population b).interactions day = some (m.interaction_idx + 1)
        ∧ ((pair_body day a b m).interactions (m.interaction_idx + 1)).individual = some a)
    ∧ (∀ (f : List Nat → List Nat) (m : model) (A : Nat), A < m.params.n_total →
        (build_daily_newtork_taken f m).2.Nodup →
        ∃ la, adjacency (build_daily_newtork f m) m.interaction_day_idx A = some la
          ∧ A ∉ la) := by
  refine ⟨?_, ?_, ?_⟩
  · intro f m p hp
    rw [scan_pairs_eq_daily_pairs] at hp
    exact daily_pairs_ne f m p hp
  · intro day a b m hab
    refine ⟨?_, ?_, ?_, ?_⟩
    · rw [pair_body_head_fst day a b m hab day, if_pos rfl]
    · rw [pair_body_interactions _ _ _ _ hab,
        Function.update_noteq (Nat.ne_of_lt (Nat.lt_succ_self _)), Function.update_same]
    · rw [pair_body_head_snd day a b m hab day, if_pos rfl]
    · rw [pair_body_interactions _ _ _ _ hab, Function.update_same]
  · intro f m A hA hnd
    rw [build_daily_newtork_taken_log] at hnd
    refine ⟨_, adjacency_build f m A hA hnd, ?_⟩
    rw [List.mem_reverse]
    exact not_mem_partners_self _ (daily_pairs_ne f m) A

/-! ## The scenario of ten individuals -/

/-- The first time step of the scenario: a template of twenty slots, ten pairs and
twenty interaction records, all inside the arena, when the shuffle has no two equal
neighbours. -/
theorem scenario_first_step (n_mean person : Nat → Nat) (m : model)
    (f : List Nat → List Nat)
    (_htime : m.time = 0)
    (hdaily : ∀ d, m.params.end_time ≤ d → m.n_infected_daily d = 0)
    (_hend : 1 < m.params.end_time)
    (hn : m.params.n_total = 10) (hmd : m.params.mean_daily_interactions = 2)
    (hW : m.params.days_of_interactions = 1) (hseed : m.params.n_seed_infection = 1)
    (hmean : ∀ i, i < 10 → n_mean i = 2) (hp : person 0 < 10)
    (hf : (f (template_copy (set_up_model n_mean person m))).Perm
      (template_copy (set_up_model n_mean person m)))
    (hno : self_pairs (f (template_copy (set_up_model n_mean person m))) = 0) :
    (set_up_model n_mean person m).n_infected = 1
    ∧ (set_up_model n_mean person m).n_possible_interactions = 20
    ∧ (daily_pairs f (set_up_model n_mean person m)).length = 10
    ∧ (build_daily_newtork_taken f { set_up_model n_mean person m with
          time := (set_up_model n_mean person m).time + 1 }).2.length = 20
    ∧ (∀ i ∈ (build_daily_newtork_taken f { set_up_model n_mean person m with
          time := (set_up_model n_mean person m).time + 1 }).2,
        i < (set_up_model n_mean person m).n_interactions)
    ∧ ∃ r, one_time_step f (set_up_model n_mean person m) = some r
        ∧ ∑ x in Finset.range 10,
            (r.2.population x).n_interactions
              (set_up_model n_mean person m).interaction_day_idx = 20 := by
  have hsum : ∑ i in Finset.range m.params.n_total, n_mean i = 20 := by
    rw [hn, Finset.sum_congr rfl (fun i hi => hmean i (Finset.mem_range.mp hi))]
    simp
  obtain ⟨f1, -, f3, f4, -, -, -⟩ := set_up_model_fields n_mean person m
  have hlen : (set_up_model n_mean person m).n_possible_interactions = 20 := by
    rw [← length_template_copy, template_copy_set_up_model, blocks_length, hsum]
  have hpairs : (daily_pairs f (set_up_model n_mean person m)).length = 10 := by
    rw [daily_pairs_of_perm f _ hf, pairs_length_of_no_self_pairs _ hno, hf.length_eq,
      length_template_copy, hlen]
  have htaken : (build_daily_newtork_taken f { set_up_model n_mean person m with
      time := (set_up_model n_mean person m).time + 1 }).2.length = 20 := by
    rw [build_daily_newtork_taken_log, write_log_length]
    show 2 * (daily_pairs f (set_up_model n_mean person m)).length = 20
    rw [hpairs]
  have hcap : (set_up_model n_mean person m).n_interactions = 20 := by
    rw [f3]; unfold n_daily_interactions; rw [hn, hmd, hW]
  have hin := build_in_arena_of_room f { set_up_model n_mean person m with
      time := (set_up_model n_mean person m).time + 1 }
    (by show (set_up_model n_mean person m).interaction_idx
          + 2 * (daily_pairs f (set_up_model n_mean person m)).length
          ≤ (set_up_model n_mean person m).n_interactions
        rw [f4, hpairs, hcap])
  have hw : WellFormed (set_up_model n_mean person m) :=
    set_up_model_well_formed n_mean person m (by omega)
      (by rw [hsum]; unfold n_daily_interactions; rw [hn, hmd])
      (fun i hi => by
        have : i = 0 := by omega
        rw [this, hn]; exact hp) hdaily
  obtain ⟨r, h1, -⟩ := one_time_step_well_formed f _ hw hf
  obtain ⟨m3, t1, t2⟩ := one_time_step_some f _ r h1
  have t13 := (transmit_virus_frame _ _ t1).2.2.2.2.2.2.2.2.2.2.2.2
  have htemplate : ∀ i ∈ template_copy (set_up_model n_mean person m),
      i < (set_up_model n_mean person m).params.n_total := by
    intro i hi
    rw [template_copy_set_up_model] at hi
    rw [f1]
    exact blocks_mem _ _ _ hi
  have hs := build_daily_newtork_sum_counts f { set_up_model n_mean person m with
    time := (set_up_model n_mean person m).time + 1 } hf htemplate
  refine ⟨by rw [set_up_model_n_infected, hseed], hlen, hpairs, htaken, hin, r, h1, ?_⟩
  rw [htaken] at hs
  rw [hs]
  show _ = ∑ x in Finset.range (set_up_model n_mean person m).params.n_total, _
  rw [f1, hn]
  apply Finset.sum_congr rfl
  intro x _
  rw [t2]
  show (m3.population x).n_interactions _ = _
  rw [(t13 x).1]

/-- C11, scenario record count, as the code has it: when the set-up calls of `new_model`
have run on a model structure at time `0` with ten individuals of two mean interactions
each, a window of one day, one seed infection and an `end_time` past the first day, the
cumulative infection count is `1`, the
template has `20` slots, and the first time step under a shuffle without two equal
neighbours makes `10` pairs, takes exactly `20` interaction records, all of them inside
the arena, and leaves counts that add up to `20`. -/
theorem scenario_record_count (n_mean person : Nat → Nat) (m : model)
    (f : List Nat → List Nat)
    (htime : m.time = 0)
    (hdaily : ∀ d, m.params.end_time ≤ d → m.n_infected_daily d = 0)
    (hend : 1 < m.params.end_time)
    (hn : m.params.n_total = 10) (hmd : m.params.mean_daily_interactions = 2)
    (hW : m.params.days_of_interactions = 1) (hseed : m.params.n_seed_infection = 1)
    (hmean : ∀ i, i < 10 → n_mean i = 2) (hp : person 0 < 10)
    (hf : (f (template_copy (set_up_model n_mean person m))).Perm
      (template_copy (set_up_model n_mean person m)))
    (hno : self_pairs (f (template_copy (set_up_model n_mean person m))) = 0) :
    (set_up_model n_mean person m).n_infected = 1
    ∧ (set_up_model n_mean person m).n_possible_interactions = 20
    ∧ (daily_pairs f (set_up_model n_mean person m)).length = 10
    ∧ (build_daily_newtork_taken f { set_up_model n_mean person m with
          time := (set_up_model n_mean person m).time + 1 }).2.length = 20
    ∧ (∀ i ∈ (build_daily_newtork_taken f { set_up_model n_mean person m with
          time := (set_up_model n_mean person m).time + 1 }).2,
        i < (set_up_model n_mean person m).n_interactions)
    ∧ ∃ r, one_time_step f (set_up_model n_mean person m) = some r
        ∧ ∑ x in Finset.range 10,
            (r.2.population x).n_interactions
              (set_up_model n_mean person m).interaction_day_idx = 20 :=
  scenario_first_step n_mean person m f htime hdaily hend hn hmd hW hseed hmean hp hf hno

theorem scenario_block_daily :
    ∀ d, scenario_block.params.end_time ≤ d → scenario_block.n_infected_daily d = 0 := by
  intro d hd
  have h : ¬ d < 10 := Nat.not_lt.mpr hd
  show (if d < 10 then 4 else 0) = 0
  rw [if_neg h]

theorem scenario_shuffle_perm :
    (scenario_shuffle (template_copy scenario_model)).Perm (template_copy scenario_model) := by
  have h : template_copy scenario_model
      = ((List.range 10).map fun i => List.replicate 2 i).flatten :=
    template_copy_set_up_model (fun _ => 2) (fun _ => 0) scenario_block
  rw [h]
  decide

theorem scenario_shuffle_no_self_pairs :
    self_pairs (scenario_shuffle (template_copy scenario_model)) = 0 := by
  decide

/-- C11, the scenario with ten records and five pairs, refuted: in the scenario state,
the set-up calls run on a model structure with the parameters of the scenario, under a
shuffle that permutes the template and has no two equal neighbours, the first time step
takes `20` interaction records, not `10`, and makes `10` pairs, not `5`; the records are
inside the arena. -/
theorem scenario_record_count_counterexample :
    (scenario_shuffle (template_copy scenario_model)).Perm (template_copy scenario_model)
    ∧ self_pairs (scenario_shuffle (template_copy scenario_model)) = 0
    ∧ scenario_model.n_infected = 1
    ∧ (∀ i ∈ (build_daily_newtork_taken scenario_shuffle
          { scenario_model with time := scenario_model.time + 1 }).2,
        i < scenario_model.n_interactions)
    ∧ (build_daily_newtork_taken scenario_shuffle
        { scenario_model with time := scenario_model.time + 1 }).2.length ≠ 10
    ∧ (daily_pairs scenario_shuffle scenario_model).length ≠ 5 := by
  obtain ⟨h1, -, h3, h4, h5, -⟩ := scenario_first_step (fun _ => 2) (fun _ => 0)
    scenario_block scenario_shuffle rfl scenario_block_daily (by decide) rfl rfl rfl rfl
    (fun _ _ => rfl) (by decide) scenario_shuffle_perm scenario_shuffle_no_self_pairs
  refine ⟨scenario_shuffle_perm, scenario_shuffle_no_self_pairs, h1, h5, ?_, ?_⟩
  · have e : (build_daily_newtork_taken scenario_shuffle
        { scenario_model with time := scenario_model.time + 1 }).2.length = 20 := h4
    rw [e]; decide
  · have e : (daily_pairs scenario_shuffle scenario_model).length = 10 := h3
    rw [e]; decide

theorem scenario_record_count_witness :
    (scenario_block.time = 0
      ∧ (∀ d, scenario_block.params.end_time ≤ d → scenario_block.n_infected_daily d = 0)
      ∧ 1 < scenario_block.params.end_time
      ∧ scenario_block.params.n_total = 10
      ∧ scenario_block.params.mean_daily_interactions = 2
      ∧ scenario_block.params.days_of_interactions = 1
      ∧ scenario_block.params.n_seed_infection = 1
      ∧ (∀ i, i < 10 → (fun _ => 2) i = 2) ∧ (fun _ => 0) 0 < 10
      ∧ (scenario_shuffle (template_copy scenario_model)).Perm (template_copy scenario_model)
      ∧ self_pairs (scenario_shuffle (template_copy scenario_model)) = 0)
    ∧ (set_up_model (fun _ => 2) (fun _ => 0) scenario_block).n_infected = 1
    ∧ (set_up_model (fun _ => 2) (fun _ => 0) scenario_block).n_possible_interactions = 20
    ∧ (daily_pairs scenario_shuffle
        (set_up_model (fun _ => 2) (fun _ => 0) scenario_block)).length = 10
    ∧ (build_daily_newtork_taken scenario_shuffle
        { set_up_model (fun _ => 2) (fun _ => 0) scenario_block with
          time := (set_up_model (fun _ => 2) (fun _ => 0) scenario_block).time + 1 }).2.length
        = 20
    ∧ (∀ i ∈ (build_daily_newtork_taken scenario_shuffle
        { set_up_model (fun _ => 2) (fun _ => 0) scenario_block with
          time := (set_up_model (fun _ => 2) (fun _ => 0) scenario_block).time + 1 }).2,
        i < (set_up_model (fun _ => 2) (fun _ => 0) scenario_block).n_interactions)
    ∧ ∃ r, one_time_step scenario_shuffle
          (set_up_model (fun _ => 2) (fun _ => 0) scenario_block) = some r
        ∧ ∑ x in Finset.range 10,
            (r.2.population x).n_interactions
              (set_up_model (fun _ => 2) (fun _ => 0) scenario_block).interaction_day_idx
            = 20 :=
  ⟨⟨rfl, scenario_block_daily, by decide, rfl, rfl, rfl, rfl, fun _ _ => rfl, by decide,
      scenario_shuffle_perm, scenario_shuffle_no_self_pairs⟩,
    scenario_record_count (fun _ => 2) (fun _ => 0) scenario_block scenario_shuffle
      rfl scenario_block_daily (by decide) rfl rfl rfl rfl (fun _ _ => rfl) (by decide)
      scenario_shuffle_perm scenario_shuffle_no_self_pairs⟩

/-! ## Invariants of the states reached from construction -/

theorem new_infection_with_events (m : model) (events : Nat → event)
    (infected : Nat → Option Nat) (x : Nat) :
    new_infection (with_events m events infected) x
      = with_events (new_infection m x)
          (new_infection (with_events m events infected) x).events
          (new_infection (with_events m events infected) x).infected := rfl

theorem record_count_parity_witness :
    ((id (template_copy example_model)).Perm (template_copy example_model)
      ∧ ∀ i ∈ template_copy example_model, i < example_model.params.n_total)
    ∧ (build_daily_newtork_taken id example_model).2.length
        = ∑ x in Finset.range example_model.params.n_total,
            ((build_daily_newtork id example_model).population x).n_interactions
              example_model.interaction_day_idx :=
  ⟨⟨List.Perm.refl _, by decide⟩,
    record_count_parity.2 id example_model (List.Perm.refl _) (by decide)⟩

theorem realized_degree_bound_witness :
    (((0 : Nat) < example_state.params.n_total
        ∧ (List.reverse (template_copy example_state)).Perm (template_copy example_state))
      ∧ ((build_daily_newtork List.reverse example_state).population 0).n_interactions
            example_state.interaction_day_idx
          ≤ (template_copy example_state).count 0)
    ∧ ∃ m1, run [List.reverse, id] (set_up_model (fun _ => 1) (fun _ => 0) example_block)
          = some m1
        ∧ (1 ≤ example_block.params.days_of_interactions
          ∧ ∑ j in Finset.range example_block.params.n_total, (fun _ => 1) j
              ≤ n_daily_interactions example_block.params
          ∧ (∀ j, j < example_block.params.n_seed_infection →
              (fun _ => 0) j < example_block.params.n_total)
          ∧ example_block.params.n_seed_infection ≤ example_block.params.n_total
          ∧ [List.reverse, (id : List Nat → List Nat)].length < example_block.params.end_time
          ∧ (∀ g ∈ [List.reverse, id],
              (g (template_copy (set_up_model (fun _ => 1) (fun _ => 0) example_block))).Perm
                (template_copy (set_up_model (fun _ => 1) (fun _ => 0) example_block)))
          ∧ in_arena [List.reverse, id] (set_up_model (fun _ => 1) (fun _ => 0) example_block)
          ∧ (0 : Nat) < example_block.params.n_total
          ∧ (List.reverse (template_copy m1)).Perm (template_copy m1))
        ∧ (template_copy m1).count 0 = (m1.population 0).n_mean_interactions
        ∧ (m1.population 0).n_mean_interactions = (fun _ => 1) 0
        ∧ ((build_daily_newtork List.reverse m1).population 0).n_interactions
              m1.interaction_day_idx
            ≤ (m1.population 0).n_mean_interactions := by
  obtain ⟨m1, h1, -⟩ := run_well_formed [List.reverse, id] example_state
    example_state_well_formed (example_shuffles_perm _ (by simp) _)
  exact ⟨⟨⟨by decide, List.reverse_perm _⟩,
      realized_degree_bound.2.1 List.reverse example_state 0 (by decide)
        (List.reverse_perm _)⟩,
    m1, h1, ⟨by decide, by decide, by decide, by decide, by decide,
      example_shuffles_perm _ (by simp) _, example_state_in_arena _ _, by decide,
      List.reverse_perm _⟩,
    realized_degree_bound.2.2 (fun _ => 1) (fun _ => 0) example_block [List.reverse, id] m1
      List.reverse 0 (by decide) (by decide) (by decide) (by decide) (by decide)
      (example_shuffles_perm _ (by simp) _) (example_state_in_arena _ _) h1 (by decide)
      (List.reverse_perm _)⟩

theorem no_self_contact_witness :
    ((0 : Nat) < example_model.params.n_total
      ∧ (build_daily_newtork_taken id example_model).2.Nodup)
    ∧ ∃ la, adjacency (build_daily_newtork id example_model)
          example_model.interaction_day_idx 0 = some la
        ∧ 0 ∉ la := by
  have h : (build_daily_newtork_taken id example_model).2.Nodup := by
    rw [build_daily_newtork_taken_log]
    decide
  exact ⟨⟨by decide, h⟩, no_self_contact.2.2 id example_model 0 (by decide) h⟩

end OpenABM
